import Mathlib

/-!
Verification development for the sokol-py ctypes binding generator
(`generator/generate_bindings.py`).  Python strings are modelled as lists
of characters, Python `OrderedDict`s as association lists in insertion
order, and the generator's extraction and emission functions are
translated definition by definition.  All definitions are structurally
recursive (fuelled where Python recursion is not structural) so that
concrete runs reduce inside the kernel.
-/

namespace SokolGen

/-- Python strings are modelled as lists of characters. -/
abbrev PyStr := List Char

/-- The characters of a Lean string literal; used to transcribe the Python
source's string literals. -/
def pstr (s : String) : PyStr := s.data

/-- The characters Python's `str.strip()` removes by default (ASCII range;
the generator only ever strips C type spellings). -/
def isPySpace (c : Char) : Bool :=
  c = ' ' || c = '\t' || c = '\n' || c = '\r' || c = '\x0b' || c = '\x0c'

/-- Python `s.lstrip()`. -/
def pyLstrip (s : PyStr) : PyStr := s.dropWhile isPySpace

/-- Python `s.strip()`: drop leading and trailing whitespace. -/
def pyStrip (s : PyStr) : PyStr :=
  ((s.dropWhile isPySpace).reverse.dropWhile isPySpace).reverse

/-- Boolean string-prefix test (Python `s.startswith(pat)` is
`pyPrefixB pat s`). -/
def pyPrefixB : PyStr → PyStr → Bool
  | [], _ => true
  | _ :: _, [] => false
  | c :: p, d :: s => c = d && pyPrefixB p s

/-- Python `s.endswith(pat)`. -/
def pyEndsWithB (s pat : PyStr) : Bool := pyPrefixB pat.reverse s.reverse

/-- Boolean substring test (Python `pat in s`). -/
def pyInfixB (pat : PyStr) : PyStr → Bool
  | [] => pyPrefixB pat []
  | c :: rest => pyPrefixB pat (c :: rest) || pyInfixB pat rest

/-- One fuelled pass of Python `s.replace(pat, repl)` (left to right,
non-overlapping).  The fuel is consumed one character per step, so
`s.length` fuel always suffices. -/
def pyReplaceAux (pat repl : PyStr) : Nat → PyStr → PyStr
  | 0, s => s
  | _ + 1, [] => []
  | fuel + 1, c :: rest =>
    if pat ≠ [] ∧ pyPrefixB pat (c :: rest) then
      repl ++ pyReplaceAux pat repl fuel (List.drop (pat.length - 1) rest)
    else
      c :: pyReplaceAux pat repl fuel rest

/-- Python `s.replace(pat, repl)`. -/
def pyReplace (pat repl s : PyStr) : PyStr := pyReplaceAux pat repl s.length s

/-- Membership of a string in a Python list/set of strings. -/
def memB (x : PyStr) : List PyStr → Bool
  | [] => false
  | y :: l => if x = y then true else memB x l

/-- Lookup in a Python dict modelled as an association list (first match). -/
def alGet {α : Type} (k : PyStr) : List (PyStr × α) → Option α
  | [] => none
  | (k', v) :: m => if k' = k then some v else alGet k m

/-- Python `k in d` for a dict. -/
def keyMem {α : Type} (k : PyStr) (m : List (PyStr × α)) : Bool :=
  (alGet k m).isSome

/-- Python dict assignment `d[k] = v`: replace in place if the key exists
(keeping its position, as `OrderedDict` does), else append. -/
def alSet {α : Type} (k : PyStr) (v : α) : List (PyStr × α) → List (PyStr × α)
  | [] => [(k, v)]
  | (k', v') :: m => if k' = k then (k', v) :: m else (k', v') :: alSet k v m

/-- Python `set.add`. -/
def addToSet (x : PyStr) (l : List PyStr) : List PyStr :=
  if memB x l then l else l ++ [x]

/-- The decimal digit character for `d < 10`. -/
def digitChar (d : Nat) : Char := Char.ofNat (48 + d)

/-- Fuelled big-endian decimal digits of a positive number; `n` fuel
suffices for `n`. -/
def natReprAux : Nat → Nat → PyStr
  | 0, _ => []
  | _ + 1, 0 => []
  | fuel + 1, n + 1 => natReprAux fuel ((n + 1) / 10) ++ [digitChar ((n + 1) % 10)]

/-- Python `str(n)` for a natural number. -/
def natRepr (n : Nat) : PyStr := if n = 0 then ['0'] else natReprAux n n

/-- Python `str(i)` for an integer. -/
def intRepr (i : Int) : PyStr :=
  if i < 0 then '-' :: natRepr i.natAbs else natRepr i.natAbs

/-- Python `int(ds)` for a string of decimal digits. -/
def natOfDigits (ds : PyStr) : Nat :=
  ds.foldl (fun a c => a * 10 + (c.toNat - 48)) 0

/-- Python `", ".join(l)` and friends. -/
def pyJoin (sep : PyStr) (l : List PyStr) : PyStr := List.intercalate sep l

/-- Identifier characters: what a C identifier (and hence every name the
parser stores) is made of. -/
def isIdChar (c : Char) : Bool := c.isAlpha || c.isDigit || c = '_'

/-- A name is a plain identifier: nonempty, made of identifier characters. -/
def identOk (n : PyStr) : Prop := n ≠ [] ∧ ∀ c ∈ n, isIdChar c = true

/-!
The two regular expressions `_convert_type` applies with `re.match`:

* the function-pointer spelling pattern, used only for its truthiness, and
* the bracketed-array pattern, whose two groups are used.

They are implemented as specialised matchers with Python's semantics
(`.` does not match a newline, `re.match` anchors at the start only, the
first group of the array pattern is greedy).
-/

/-- Matcher for the closing fragment of the function-pointer pattern: some
run of non-newline characters followed by a literal `)` — true exactly when
a `)` occurs before any newline. -/
def fpClose : PyStr → Bool
  | [] => false
  | c :: rest => if c = ')' then true else if c = '\n' then false else fpClose rest

/-- Matcher for the tail of the function-pointer pattern after the leading
lazy group: whitespace, `(`, whitespace, `*`, whitespace, `)`, whitespace,
`(`, then `fpClose`.  Each whitespace run is followed by a non-whitespace
literal, so maximal munch is exact. -/
def fpTail (s : PyStr) : Bool :=
  match s.dropWhile isPySpace with
  | '(' :: r1 =>
    match r1.dropWhile isPySpace with
    | '*' :: r2 =>
      match r2.dropWhile isPySpace with
      | ')' :: r3 =>
        match r3.dropWhile isPySpace with
        | '(' :: r4 => fpClose r4
        | _ => false
      | _ => false
    | _ => false
  | _ => false

/-- Truthiness of
`re.match(r'(.+?)\s*\(\s*\*\s*\)\s*\((.*)\)', s)`:
at least one leading non-newline character, then `fpTail` at some split. -/
def funcPtrMatch : PyStr → Bool
  | [] => false
  | c :: rest => c ≠ '\n' && (fpTail rest || funcPtrMatch rest)

/-- Digits-and-close fragment of the array pattern: a maximal nonempty run
of decimal digits followed by a literal `]`. -/
def tryDigits (s : PyStr) : Option PyStr :=
  let ds := s.takeWhile Char.isDigit
  if ds = [] then none
  else
    match s.dropWhile Char.isDigit with
    | ']' :: _ => some ds
    | _ => none

/-- Greedy matcher for `(.*)\[(\d+)\]` anchored at the start: prefers the
longest (rightmost-bracket) first group, which may be empty here. -/
def arrMatchFrom : PyStr → Option (PyStr × PyStr)
  | [] => none
  | c :: rest =>
    match (if c = '\n' then none else (arrMatchFrom rest).map (fun p => (c :: p.1, p.2))) with
    | some r => some r
    | none => if c = '[' then (tryDigits rest).map (fun ds => (([] : PyStr), ds)) else none

/-- Groups of `re.match(r'(.+)\[(\d+)\]', s)`: as `arrMatchFrom` but the
first group must be nonempty. -/
def arrMatch (s : PyStr) : Option (PyStr × PyStr) :=
  match arrMatchFrom s with
  | some ([], _) => none
  | some r => some r
  | none => none

/-- The `C_TO_CTYPES` table of `generate_bindings.py`, in source order. -/
def C_TO_CTYPES : List (PyStr × PyStr) :=
  [ (pstr "void", pstr "None"),
    (pstr "bool", pstr "c_bool"),
    (pstr "_Bool", pstr "c_bool"),
    (pstr "char", pstr "c_char"),
    (pstr "signed char", pstr "c_byte"),
    (pstr "unsigned char", pstr "c_ubyte"),
    (pstr "short", pstr "c_short"),
    (pstr "unsigned short", pstr "c_ushort"),
    (pstr "int", pstr "c_int"),
    (pstr "unsigned int", pstr "c_uint"),
    (pstr "long", pstr "c_long"),
    (pstr "unsigned long", pstr "c_ulong"),
    (pstr "long long", pstr "c_longlong"),
    (pstr "unsigned long long", pstr "c_ulonglong"),
    (pstr "float", pstr "c_float"),
    (pstr "double", pstr "c_double"),
    (pstr "size_t", pstr "c_size_t"),
    (pstr "ssize_t", pstr "c_ssize_t"),
    (pstr "int8_t", pstr "c_int8"),
    (pstr "uint8_t", pstr "c_uint8"),
    (pstr "int16_t", pstr "c_int16"),
    (pstr "uint16_t", pstr "c_uint16"),
    (pstr "int32_t", pstr "c_int32"),
    (pstr "uint32_t", pstr "c_uint32"),
    (pstr "int64_t", pstr "c_int64"),
    (pstr "uint64_t", pstr "c_uint64"),
    (pstr "uintptr_t", pstr "c_size_t"),
    (pstr "intptr_t", pstr "c_ssize_t"),
    (pstr "ptrdiff_t", pstr "c_ssize_t"),
    (pstr "wchar_t", pstr "c_wchar") ]

/-- A record field as the parser stores it: name, resolved type string,
optional fixed array length. -/
abbrev FieldInfo := PyStr × PyStr × Option Int

/-- The symbol table the emitter reads: the parser's five maps plus the
emitter's own `generated_types` set and the recursion fuel made explicit
(Python recursion has no fuel; the fuel only bounds the depth of
`_convert_type`'s recursion). -/
structure GenEnv where
  enums : List (PyStr × List (PyStr × Int))
  structs : List (PyStr × List FieldInfo)
  typedefs : List (PyStr × PyStr)
  func_typedefs : List (PyStr × (PyStr × List PyStr))
  functions : List (PyStr × (PyStr × List (PyStr × PyStr)))
  generated_types : List PyStr
  fuel : Nat

/-- One unfolding of `BindingGenerator._convert_type`: either the branch
returns a value directly (`inl`), or it recurses on an inner type string
and appends a tail to the recursive result (`inr (arg, tail)`; the tail is
empty for the typedef branch and `" * " ++ str(int(digits))` for the array
branch). -/
def convertShape (env : GenEnv) (c_type0 : PyStr) : PyStr ⊕ (PyStr × PyStr) :=
  let c_type := pyStrip c_type0
  let c_type_clean := pyStrip (pyReplace (pstr "const ") [] c_type)
  if funcPtrMatch c_type_clean then .inl (pstr "c_void_p")
  else
    match alGet c_type_clean C_TO_CTYPES with
    | some ct => .inl ct
    | none =>
      if pyEndsWithB c_type (pstr "*") then
        let base_type := pyReplace (pstr "const ") [] (pyStrip c_type.dropLast)
        if pyInfixB (pstr "void") base_type then .inl (pstr "c_void_p")
        else if pyInfixB (pstr "char") base_type then .inl (pstr "c_char_p")
        else if keyMem base_type env.structs || memB base_type env.generated_types then
          .inl (pstr "POINTER(" ++ base_type ++ pstr ")")
        else
          match alGet base_type C_TO_CTYPES with
          | some ct => .inl (pstr "POINTER(" ++ ct ++ pstr ")")
          | none => .inl (pstr "c_void_p")
      else if keyMem c_type_clean env.structs || memB c_type_clean env.generated_types then
        .inl c_type_clean
      else if keyMem c_type_clean env.enums then .inl (pstr "c_int")
      else
        match alGet c_type_clean env.typedefs with
        | some underlying => .inr (underlying, [])
        | none =>
          if keyMem c_type_clean env.func_typedefs then .inl c_type_clean
          else
            match arrMatch c_type_clean with
            | some (g, ds) =>
              .inr (pyStrip g, pstr " * " ++ natRepr (natOfDigits ds))
            | none => .inl (pstr "c_int")

/-- Fuelled `BindingGenerator._convert_type`: `none` means the fuel ran out
before the recursion bottomed out (the Python original would still be
descending). -/
def convertFuel : Nat → GenEnv → PyStr → Option PyStr
  | 0, _, _ => none
  | fuel + 1, env, t =>
    match convertShape env t with
    | .inl v => some v
    | .inr (arg, tail) => (convertFuel fuel env arg).map (fun r => r ++ tail)

/-- The conversion as the emitter uses it, at the environment's fuel. -/
def cvt (env : GenEnv) (t : PyStr) : PyStr :=
  (convertFuel env.fuel env t).getD (pstr "c_int")

/-!
The declaration extractor (`SokolParser`).  The clang cursors the parser
visits are abstracted to the data each `_process_*` method reads off them;
the methods themselves are translated branch for branch.
-/

/-- The parser's mutable state: the five symbol-table maps plus the
forward-declaration set (`seen_types` is initialised but never used by the
source and is omitted). -/
structure ParserState where
  enums : List (PyStr × List (PyStr × Int))
  structs : List (PyStr × List FieldInfo)
  typedefs : List (PyStr × PyStr)
  functions : List (PyStr × (PyStr × List (PyStr × PyStr)))
  func_typedefs : List (PyStr × (PyStr × List PyStr))
  forward_decls : List PyStr

/-- The empty state `SokolParser.__init__` creates. -/
def initState : ParserState :=
  { enums := [], structs := [], typedefs := [], functions := [],
    func_typedefs := [], forward_decls := [] }

/-- A `FIELD_DECL` child of a record, as `_process_struct` inspects it:
its spelling, and its type's kind — a plain type (with its resolved
spelling), a pointer to a function prototype (spelling plus the prototype's
result and argument type strings), or a constant array (element type
spelling plus length). -/
inductive RawField where
  | plain (name typeStr : PyStr)
  | funcPtr (name typeStr ret : PyStr) (args : List PyStr)
  | constArray (name elemTypeStr : PyStr) (size : Int)

/-- One step of `_process_struct`'s field loop: function-pointer fields
synthesize a `_FuncPtr_<field>` entry in `func_typedefs` (a plain dict
assignment, overwriting any same-named entry) and take the synthesized name
as their type; constant arrays record element type and length. -/
def structFieldStep (acc : List FieldInfo × List (PyStr × (PyStr × List PyStr)))
    (f : RawField) : List FieldInfo × List (PyStr × (PyStr × List PyStr)) :=
  match f with
  | .plain n t => (acc.1 ++ [(n, t, none)], acc.2)
  | .funcPtr n _ ret args =>
    let fpName := pstr "_FuncPtr_" ++ n
    (acc.1 ++ [(n, fpName, none)], alSet fpName (ret, args) acc.2)
  | .constArray n et sz => (acc.1 ++ [(n, et, some sz)], acc.2)

/-- `SokolParser._process_struct`. -/
def process_struct (st : ParserState) (name : PyStr) (isDefinition : Bool)
    (rawFields : List RawField) : ParserState :=
  if name = [] then st
  else if pyInfixB (pstr "unnamed") name || pyInfixB (pstr "(") name
          || pyInfixB (pstr " ") name then st
  else if ¬ isDefinition then
    { st with forward_decls := addToSet name st.forward_decls }
  else if keyMem name st.structs then st
  else
    let fielded := rawFields.foldl structFieldStep ([], st.func_typedefs)
    let st' := { st with func_typedefs := fielded.2 }
    if fielded.1 = [] then st'
    else { st' with structs := alSet name fielded.1 st'.structs }

/-- `SokolParser._process_enum`: the `values` are the
`ENUM_CONSTANT_DECL` children's (spelling, value) pairs. -/
def process_enum (st : ParserState) (name : PyStr)
    (values : List (PyStr × Int)) : ParserState :=
  if name = [] then st
  else if keyMem name st.enums then st
  else if values = [] then st
  else { st with enums := alSet name values st.enums }

/-- A typedef's underlying type as `_process_typedef` inspects it: either a
pointer to a function prototype, or anything else (carrying the underlying
type's spelling and its `_get_type_string` resolution). -/
inductive Underlying where
  | funcPtr (ret : PyStr) (args : List PyStr)
  | other (spelling typeStr : PyStr)

/-- The first `ENUM_DECL` or `STRUCT_DECL` child of a typedef cursor, if
any (other child kinds are skipped by the loop). -/
inductive TypedefChild where
  | enumChild (values : List (PyStr × Int))
  | structChild (spelling : PyStr) (rawFields : List RawField)

/-- Field extraction in `_process_typedef`'s anonymous-struct branch: unlike
`_process_struct`, function-pointer fields are not special-cased and keep
their spelling. -/
def anonFieldInfo : RawField → FieldInfo
  | .plain n t => (n, t, none)
  | .funcPtr n ts _ _ => (n, ts, none)
  | .constArray n et sz => (n, et, some sz)

/-- `SokolParser._process_typedef` (with `_process_func_typedef` inlined for
the function-pointer branch). -/
def process_typedef (st : ParserState) (name : PyStr) (u : Underlying)
    (child? : Option TypedefChild) : ParserState :=
  if name = [] then st
  else if keyMem name st.typedefs || keyMem name st.structs
          || keyMem name st.enums then st
  else
    match u with
    | .funcPtr ret args =>
      { st with func_typedefs := alSet name (ret, args) st.func_typedefs }
    | .other spelling typeStr =>
      if pyPrefixB (pstr "struct ") spelling ∧ spelling.drop 7 = name then st
      else
        match child? with
        | some (.enumChild values) =>
          if values = [] then st
          else { st with enums := alSet name values st.enums }
        | some (.structChild sp rawFields) =>
          if sp = [] then
            let fields := rawFields.map anonFieldInfo
            if fields = [] then st
            else { st with structs := alSet name fields st.structs }
          else st
        | none => { st with typedefs := alSet name typeStr st.typedefs }

/-- Whether a function name carries one of the four recognised sokol
namespace prefixes. -/
def sokolPrefixOk (name : PyStr) : Bool :=
  pyPrefixB (pstr "sg_") name || pyPrefixB (pstr "sapp_") name
    || pyPrefixB (pstr "sglue_") name || pyPrefixB (pstr "slog_") name

/-- `SokolParser._process_function`. -/
def process_function (st : ParserState) (name ret : PyStr)
    (args : List (PyStr × PyStr)) : ParserState :=
  if name = [] then st
  else if ¬ sokolPrefixOk name then st
  else if keyMem name st.functions then st
  else { st with functions := alSet name (ret, args) st.functions }

/-- A declaration the visitor dispatches on (abstracting the cursor kinds
`_visit_cursor` handles). -/
inductive Decl where
  | enumDecl (name : PyStr) (values : List (PyStr × Int))
  | structDecl (name : PyStr) (isDefinition : Bool) (rawFields : List RawField)
  | typedefDecl (name : PyStr) (u : Underlying) (child? : Option TypedefChild)
  | funcDecl (name ret : PyStr) (args : List (PyStr × PyStr))

/-- Dispatch of `_visit_cursor` on one declaration. -/
def processDecl (st : ParserState) : Decl → ParserState
  | .enumDecl n vs => process_enum st n vs
  | .structDecl n d fs => process_struct st n d fs
  | .typedefDecl n u c => process_typedef st n u c
  | .funcDecl n r a => process_function st n r a

/-!
The binding emitter (`BindingGenerator`).  `generate` appends lines to
`output_lines` section by section and joins them with newlines; each
`_write_*` method becomes a function returning its list of lines, and
`generate` their concatenation in the source's call order.
-/

/-- The banner line every section comment uses: `"# "` followed by 77 `'='`. -/
def bannerLine : PyStr :=
  pstr "# " ++ List.replicate 77 '='

/-- `BindingGenerator._write_header`. -/
def write_header : List PyStr :=
  [ pstr "\"\"\"",
    pstr "Sokol Python Bindings (Auto-generated)",
    pstr "",
    pstr "This module was automatically generated by generate_bindings.py",
    pstr "from the Sokol C headers using libclang.",
    pstr "",
    pstr "Usage:",
    pstr "    from sokol_bindings import *",
    pstr "    sokol = load_sokol_dll('sokol-dll.dll')",
    pstr "\"\"\"",
    pstr "" ]

/-- `BindingGenerator._write_imports`. -/
def write_imports : List PyStr :=
  [ pstr "import ctypes",
    pstr "from ctypes import (",
    pstr "    Structure, Union, POINTER, CFUNCTYPE,",
    pstr "    c_bool, c_char, c_byte, c_ubyte, c_short, c_ushort,",
    pstr "    c_int, c_uint, c_long, c_ulong, c_longlong, c_ulonglong,",
    pstr "    c_float, c_double, c_size_t, c_ssize_t, c_void_p, c_char_p,",
    pstr "    c_int8, c_uint8, c_int16, c_uint16, c_int32, c_uint32,",
    pstr "    c_int64, c_uint64, c_wchar, c_wchar_p,",
    pstr "    byref, cast, sizeof, addressof,",
    pstr ")",
    pstr "from pathlib import Path",
    pstr "from typing import Optional, Any",
    pstr "",
    pstr "# Platform detection",
    pstr "import sys",
    pstr "if sys.platform == 'win32':",
    pstr "    from ctypes import windll, WinDLL",
    pstr "" ]

/-- `BindingGenerator._write_type_helpers` (the primitive-type aliases). -/
def write_type_helpers : List PyStr :=
  [ bannerLine,
    pstr "# Type Helpers",
    bannerLine,
    pstr "",
    pstr "# C type aliases",
    pstr "c_bool_p = POINTER(c_bool)",
    pstr "c_float_p = POINTER(c_float)",
    pstr "c_double_p = POINTER(c_double)",
    pstr "c_int_p = POINTER(c_int)",
    pstr "c_uint_p = POINTER(c_uint)",
    pstr "c_uint8_p = POINTER(c_uint8)",
    pstr "c_uint32_p = POINTER(c_uint32)",
    pstr "" ]

/-- `BindingGenerator._write_enums`: every constant becomes a module-level
`name = value` line. -/
def write_enums (enums : List (PyStr × List (PyStr × Int))) : List PyStr :=
  if enums = [] then []
  else
    [bannerLine, pstr "# Enums", bannerLine, pstr ""] ++
    (enums.map (fun p =>
      (pstr "# " ++ p.1) ::
        (p.2.map (fun q => q.1 ++ pstr " = " ++ intRepr q.2) ++ [pstr ""]))).flatten

/-- The stub line `_write_forward_declarations` emits for one record. -/
def classLine (name : PyStr) : PyStr :=
  pstr "class " ++ name ++ pstr "(Structure): pass"

/-- `BindingGenerator._write_forward_declarations`: one placeholder class
per entry of the structs map (and nothing else). -/
def write_forward_declarations (structs : List (PyStr × List FieldInfo)) :
    List PyStr :=
  if structs = [] then []
  else
    [bannerLine, pstr "# Forward Declarations", bannerLine, pstr ""] ++
    structs.map (fun p => classLine p.1) ++ [pstr ""]

/-- The `CFUNCTYPE` constructor line `_write_func_typedefs` emits for one
function-pointer type (zero-argument signatures omit the argument list). -/
def ctorLine (env : GenEnv) (p : PyStr × (PyStr × List PyStr)) : PyStr :=
  let ret := cvt env p.2.1
  let args := p.2.2.map (cvt env)
  if args = [] then p.1 ++ pstr " = CFUNCTYPE(" ++ ret ++ pstr ")"
  else p.1 ++ pstr " = CFUNCTYPE(" ++ ret ++ pstr ", " ++ pyJoin (pstr ", ") args ++ pstr ")"

/-- `BindingGenerator._write_func_typedefs`. -/
def write_func_typedefs (env : GenEnv) : List PyStr :=
  if env.func_typedefs = [] then []
  else
    [bannerLine, pstr "# Function Pointer Types", bannerLine, pstr ""] ++
    env.func_typedefs.map (ctorLine env) ++ [pstr ""]

/-- Python truthiness of the optional array length (`if array_size:`):
`None` and `0` are falsy. -/
def truthyOptInt : Option Int → Bool
  | none => false
  | some n => n ≠ 0

/-- The line `_write_structs` emits for one field. -/
def fieldLine (env : GenEnv) (f : FieldInfo) : PyStr :=
  let ctype := cvt env f.2.1
  if truthyOptInt f.2.2 then
    pstr "    (\"" ++ f.1 ++ pstr "\", " ++ ctype ++ pstr " * "
      ++ intRepr (f.2.2.getD 0) ++ pstr "),"
  else
    pstr "    (\"" ++ f.1 ++ pstr "\", " ++ ctype ++ pstr "),"

/-- The fill-in line that attaches a record's field list to its placeholder. -/
def fieldsHeaderLine (name : PyStr) : PyStr := name ++ pstr "._fields_ = ["

/-- `BindingGenerator._write_structs`. -/
def write_structs (env : GenEnv) : List PyStr :=
  if env.structs = [] then []
  else
    [bannerLine, pstr "# Structures", bannerLine, pstr ""] ++
    (env.structs.map (fun p =>
      [pstr "# " ++ p.1, fieldsHeaderLine p.1] ++
        p.2.map (fieldLine env) ++ [pstr "]", pstr ""])).flatten

/-- `BindingGenerator._write_library_loader`. -/
def write_library_loader : List PyStr :=
  [ bannerLine,
    pstr "# Library Loader",
    bannerLine,
    pstr "",
    pstr "_sokol_lib = None",
    pstr "",
    pstr "def load_sokol_dll(dll_path: str = 'sokol-dll.dll') -> Any:",
    pstr "    \"\"\"",
    pstr "    Load the Sokol DLL and set up function prototypes.",
    pstr "    ",
    pstr "    Args:",
    pstr "        dll_path: Path to the Sokol DLL file",
    pstr "    ",
    pstr "    Returns:",
    pstr "        The loaded library object with all functions bound",
    pstr "    \"\"\"",
    pstr "    global _sokol_lib",
    pstr "    ",
    pstr "    path = Path(dll_path)",
    pstr "    if not path.exists():",
    pstr "        # Try common locations",
    pstr "        for try_path in [Path('.') / dll_path, Path(__file__).parent / dll_path]:",
    pstr "            if try_path.exists():",
    pstr "                path = try_path",
    pstr "                break",
    pstr "    ",
    pstr "    if sys.platform == 'win32':",
    pstr "        lib = ctypes.CDLL(str(path))",
    pstr "    else:",
    pstr "        lib = ctypes.CDLL(str(path))",
    pstr "    ",
    pstr "    _setup_function_prototypes(lib)",
    pstr "    _sokol_lib = lib",
    pstr "    return lib",
    pstr "" ]

/-- The block `_write_function_bindings` emits for one captured function:
a comment, the `hasattr` guard, and the two assignments under it. -/
def funcBindingBlock (env : GenEnv) (p : PyStr × (PyStr × List (PyStr × PyStr))) :
    List PyStr :=
  let ret := cvt env p.2.1
  let args := p.2.2.map (fun a => cvt env a.2)
  [ pstr "    # " ++ p.1,
    pstr "    if hasattr(lib, '" ++ p.1 ++ pstr "'):",
    pstr "        lib." ++ p.1 ++ pstr ".restype = " ++ ret ] ++
  (if args = [] then [pstr "        lib." ++ p.1 ++ pstr ".argtypes = []"]
   else [pstr "        lib." ++ p.1 ++ pstr ".argtypes = ["
          ++ pyJoin (pstr ", ") args ++ pstr "]"]) ++
  [pstr "    "]

/-- `BindingGenerator._write_function_bindings`. -/
def write_function_bindings (env : GenEnv) : List PyStr :=
  [ pstr "def _setup_function_prototypes(lib):",
    pstr "    \"\"\"Set up ctypes function prototypes.\"\"\"",
    pstr "    " ] ++
  (env.functions.map (funcBindingBlock env)).flatten ++ [pstr ""]

/-- The names `_write_footer` lists in `__all__`, in emission order: every
enum constant, every record name, every function-pointer-type name, then
the four fixed exports. -/
def allExportNames (env : GenEnv) : List PyStr :=
  (env.enums.map (fun p => p.2.map (·.1))).flatten ++
  env.structs.map (·.1) ++
  env.func_typedefs.map (·.1) ++
  [pstr "load_sokol_dll", pstr "get_lib", pstr "make_range", pstr "make_buffer_from_array"]

/-- The quoted entry line of the `__all__` list. -/
def quoteLine (n : PyStr) : PyStr := pstr "    '" ++ n ++ pstr "',"

/-- The fixed helper-function lines of `_write_footer` before `__all__`. -/
def footerFixed : List PyStr :=
  [ bannerLine,
    pstr "# Helper Functions",
    bannerLine,
    pstr "",
    pstr "def get_lib():",
    pstr "    \"\"\"Get the loaded Sokol library.\"\"\"",
    pstr "    if _sokol_lib is None:",
    pstr "        raise RuntimeError('Sokol library not loaded. Call load_sokol_dll() first.')",
    pstr "    return _sokol_lib",
    pstr "",
    pstr "",
    pstr "def make_range(data: bytes) -> sg_range:",
    pstr "    \"\"\"Create an sg_range from bytes data.\"\"\"",
    pstr "    r = sg_range()",
    pstr "    r.ptr = ctypes.cast(data, c_void_p)",
    pstr "    r.size = len(data)",
    pstr "    return r",
    pstr "",
    pstr "",
    pstr "def make_buffer_from_array(arr, ctype=c_float):",
    pstr "    \"\"\"Create a ctypes array from a Python list.\"\"\"",
    pstr "    return (ctype * len(arr))(*arr)",
    pstr "",
    pstr "",
    pstr "# Export all public names" ]

/-- `BindingGenerator._write_footer`. -/
def write_footer (env : GenEnv) : List PyStr :=
  footerFixed ++ [pstr "__all__ = ["] ++
  (allExportNames env).map quoteLine ++ [pstr "]"]

/-- The emitter's environment over a finished parser state: the five maps
are shared, and `generated_types` holds exactly the struct names that
`_write_forward_declarations` adds (it is empty when the structs map is
empty, since that method returns before its loop). -/
def mkEnv (fuel : Nat) (ps : ParserState) : GenEnv :=
  { enums := ps.enums, structs := ps.structs, typedefs := ps.typedefs,
    func_typedefs := ps.func_typedefs, functions := ps.functions,
    generated_types := if ps.structs = [] then [] else ps.structs.map (·.1),
    fuel := fuel }

/-- `BindingGenerator.generate` as the list of emitted lines, in the
source's call order. -/
def generateLines (fuel : Nat) (ps : ParserState) : List PyStr :=
  let env := mkEnv fuel ps
  write_header ++ write_imports ++ write_type_helpers ++
  write_enums env.enums ++ write_forward_declarations env.structs ++
  write_func_typedefs env ++ write_structs env ++
  write_library_loader ++ write_function_bindings env ++ write_footer env

/-- The generated module text: `"\n".join(self.output_lines)`. -/
def generateText (fuel : Nat) (ps : ParserState) : PyStr :=
  pyJoin (pstr "\n") (generateLines fuel ps)

/-!
Runtime semantics of the emitted `_setup_function_prototypes(lib)` body:
a loaded library object is a set of present symbols plus the `restype` and
`argtypes` attributes assigned so far; `hasattr(lib, f)` is presence of
`f`, and each guarded block assigns the two attributes of a present
symbol.  This models the generated Python text, which is fully determined
by the emitter above.
-/

/-- A loaded native library as the generated registrar sees it. -/
structure LibState where
  present : List PyStr
  restypes : List (PyStr × PyStr)
  argtypesMap : List (PyStr × List PyStr)

/-- Effect of one emitted `if hasattr(lib, f): ...` block. -/
def registrarStep (env : GenEnv) (lib : LibState)
    (p : PyStr × (PyStr × List (PyStr × PyStr))) : LibState :=
  if memB p.1 lib.present then
    { lib with
      restypes := alSet p.1 (cvt env p.2.1) lib.restypes,
      argtypesMap := alSet p.1 (p.2.2.map (fun a => cvt env a.2)) lib.argtypesMap }
  else lib

/-- Effect of the whole emitted `_setup_function_prototypes` body. -/
def runRegistrar (env : GenEnv) (lib : LibState) : LibState :=
  env.functions.foldl (registrarStep env) lib

/-- Modelled from the spec: the public surface §4.2 claims for the
manifest — "every enum constant name, every record name, every
function-pointer-type name, plus the loader and two small convenience
helpers (raw-byte-range wrapper, fixed-length-array constructor)".  Used
only to compare against `allExportNames`, the list the code emits. -/
def specManifest (env : GenEnv) : List PyStr :=
  (env.enums.map (fun p => p.2.map (·.1))).flatten ++
  env.structs.map (·.1) ++
  env.func_typedefs.map (·.1) ++
  [pstr "load_sokol_dll", pstr "make_range", pstr "make_buffer_from_array"]

/-- The one-step recursion relation of `_convert_type`: `stepR env s' s`
holds when converting `s` recurses on `s'` (through the typedef branch or
the array-element branch). -/
def stepR (env : GenEnv) (s' s : PyStr) : Prop :=
  ∃ tail, convertShape env s = .inr (s', tail)

/-!
Shared concrete states for witnesses: a small populated symbol table of the
shape the parser produces on sokol-like headers.
-/

/-- A small populated parser state used by several witnesses. -/
def samplePs : ParserState :=
  { enums := [(pstr "sg_backend",
      [(pstr "SG_BACKEND_GLCORE", 0), (pstr "SG_BACKEND_D3D11", 1)])],
    structs := [(pstr "sg_desc",
      [(pstr "uniform_buffer_size", pstr "int", none),
       (pstr "colors", pstr "float", some 4)])],
    typedefs := [(pstr "sg_myint", pstr "int")],
    functions := [(pstr "sg_setup",
      (pstr "void", [(pstr "desc", pstr "const sg_desc *")]))],
    func_typedefs := [(pstr "_FuncPtr_cb", (pstr "void", []))],
    forward_decls := [] }

/-- The sample state's emitter environment at fuel 20. -/
def sampleEnv : GenEnv := mkEnv 20 samplePs

/-! Helper lemmas about the string utilities. -/

theorem pyPrefixB_append_self (p t : PyStr) : pyPrefixB p (p ++ t) = true := by
  induction p with
  | nil => rfl
  | cons c p ih => simp [pyPrefixB, ih]

theorem quoteLine_inj {a b : PyStr} (h : quoteLine a = quoteLine b) : a = b := by
  unfold quoteLine at h
  have h2 := List.append_cancel_right h
  exact List.append_cancel_left h2

theorem classLine_inj {a b : PyStr} (h : classLine a = classLine b) : a = b := by
  unfold classLine at h
  have h2 := List.append_cancel_right h
  exact List.append_cancel_left h2

/-- Lines of the fixed portions of the footer never start with the four
spaces and apostrophe that `quoteLine` prepends. -/
theorem footer_fixed_no_quote_start :
    (footerFixed ++ [pstr "__all__ = ["] ++ [pstr "]"]).all
      (fun l => !pyPrefixB (pstr "    '") l) = true := by decide

theorem quoteLine_starts (n : PyStr) :
    pyPrefixB (pstr "    '") (quoteLine n) = true := by
  unfold quoteLine
  have : pstr "    '" ++ n ++ pstr "'," = pstr "    '" ++ (n ++ pstr "',") := by
    simp
  rw [this]
  exact pyPrefixB_append_self _ _

/-- Claim C10: a field recorded with array length exactly 0 is emitted as a
plain field of the converted element type (no `* length` repetition),
because the emitter tests the length for truthiness; only a nonzero length
produces the array form. -/
theorem c10_zero_length_array (env : GenEnv) (n t : PyStr) :
    fieldLine env (n, t, some 0) =
      pstr "    (\"" ++ n ++ pstr "\", " ++ cvt env t ++ pstr "),"
    ∧ fieldLine env (n, t, some 0) = fieldLine env (n, t, none)
    ∧ ∀ k : Int, k ≠ 0 → fieldLine env (n, t, some k) =
        pstr "    (\"" ++ n ++ pstr "\", " ++ cvt env t ++ pstr " * "
          ++ intRepr k ++ pstr "),":= by
  refine ⟨by simp [fieldLine, truthyOptInt], by simp [fieldLine, truthyOptInt], ?_⟩
  intro k hk
  simp [fieldLine, truthyOptInt, hk]

theorem c10_zero_length_array_witness :
    fieldLine sampleEnv (pstr "b", pstr "float", some 0) =
      pstr "    (\"" ++ pstr "b" ++ pstr "\", " ++ cvt sampleEnv (pstr "float")
        ++ pstr "),"
    ∧ fieldLine sampleEnv (pstr "b", pstr "float", some 4) =
        pstr "    (\"" ++ pstr "b" ++ pstr "\", " ++ cvt sampleEnv (pstr "float")
          ++ pstr " * " ++ intRepr 4 ++ pstr "),":=
  ⟨(c10_zero_length_array sampleEnv (pstr "b") (pstr "float")).1,
   (c10_zero_length_array sampleEnv (pstr "b") (pstr "float")).2.2 4 (by decide)⟩

/-- Claim C7: a visited function declaration is added to the functions map
exactly when its name carries one of the prefixes `sg_`, `sapp_`, `sglue_`,
`slog_` and is not already recorded; otherwise the state is unchanged. -/
theorem c7_prefix_filter (st : ParserState) (name ret : PyStr)
    (args : List (PyStr × PyStr)) :
    process_function st name ret args =
      if sokolPrefixOk name ∧ ¬ keyMem name st.functions then
        { st with functions := alSet name (ret, args) st.functions }
      else st := by
  unfold process_function
  by_cases hn : name = []
  · subst hn
    have : sokolPrefixOk [] = false := by decide
    simp [this]
  · by_cases hp : sokolPrefixOk name
    · by_cases hm : keyMem name st.functions
      · simp [hn, hp, hm]
      · simp [hn, hp, hm]
    · simp [hn, hp]

/-- Claim C8: emission is deterministic — the generated text depends only
on the five symbol-table maps, so two runs over equal maps (in particular
states that differ in the unused `forward_decls` tracking) emit
byte-identical output text. -/
theorem c8_deterministic (fuel : Nat) (ps₁ ps₂ : ParserState)
    (h₁ : ps₁.enums = ps₂.enums) (h₂ : ps₁.structs = ps₂.structs)
    (h₃ : ps₁.typedefs = ps₂.typedefs)
    (h₄ : ps₁.func_typedefs = ps₂.func_typedefs)
    (h₅ : ps₁.functions = ps₂.functions) :
    generateText fuel ps₁ = generateText fuel ps₂ := by
  unfold generateText generateLines mkEnv
  rw [h₁, h₂, h₃, h₄, h₅]

theorem c8_deterministic_witness :
    generateText 20 samplePs =
      generateText 20 { samplePs with forward_decls := [pstr "sg_hidden"] } :=
  c8_deterministic 20 _ _ rfl rfl rfl rfl rfl

/-- Counterexample to claim C5 as stated: the emitted `__all__` also lists
`get_lib`, which is neither an enum constant, record, function-pointer-type
name, the loader, nor one of the two claimed helpers. -/
theorem c5_counterexample :
    (pstr "get_lib") ∈ allExportNames (mkEnv 0 initState)
    ∧ (pstr "get_lib") ∉ specManifest (mkEnv 0 initState)
    ∧ quoteLine (pstr "get_lib") ∈ write_footer (mkEnv 0 initState) := by
  refine ⟨by decide, by decide, ?_⟩
  decide

/-- Claim C5 as amended: the emitted manifest lists exactly every enum
constant name, every record name, every function-pointer-type name, the
loader, the library accessor `get_lib`, the raw-byte-range wrapper and the
fixed-length-array constructor — and nothing else appears as a manifest
entry line in the footer. -/
theorem c5_amended (env : GenEnv) (n : PyStr) :
    quoteLine n ∈ write_footer env ↔
      (n ∈ (env.enums.map (fun p => p.2.map (·.1))).flatten
       ∨ n ∈ env.structs.map (·.1)
       ∨ n ∈ env.func_typedefs.map (·.1)
       ∨ n ∈ [pstr "load_sokol_dll", pstr "get_lib", pstr "make_range",
              pstr "make_buffer_from_array"]) := by
  constructor
  · intro h
    unfold write_footer at h
    rcases List.mem_append.1 h with h' | hlast
    · rcases List.mem_append.1 h' with h'' | hmap
      · rcases List.mem_append.1 h'' with hfix | hopen
        · exfalso
          have hall := List.all_eq_true.1 footer_fixed_no_quote_start
          have := hall (quoteLine n)
            (by exact List.mem_append.2 (Or.inl (List.mem_append.2 (Or.inl hfix))))
          rw [quoteLine_starts n] at this
          simp at this
        · exfalso
          have hall := List.all_eq_true.1 footer_fixed_no_quote_start
          have := hall (quoteLine n)
            (by exact List.mem_append.2 (Or.inl (List.mem_append.2 (Or.inr hopen))))
          rw [quoteLine_starts n] at this
          simp at this
      · obtain ⟨m, hm, he⟩ := List.mem_map.1 hmap
        have := quoteLine_inj he.symm
        subst this
        unfold allExportNames at hm
        rcases List.mem_append.1 hm with h1 | h4
        · rcases List.mem_append.1 h1 with h2 | h3
          · rcases List.mem_append.1 h2 with ha | hb
            · exact Or.inl ha
            · exact Or.inr (Or.inl hb)
          · exact Or.inr (Or.inr (Or.inl h3))
        · exact Or.inr (Or.inr (Or.inr h4))
    · exfalso
      have hall := List.all_eq_true.1 footer_fixed_no_quote_start
      have := hall (quoteLine n)
        (by
          simp only [List.mem_singleton] at hlast
          exact List.mem_append.2 (Or.inr (by simp [hlast])))
      rw [quoteLine_starts n] at this
      simp at this
  · intro h
    unfold write_footer
    refine List.mem_append.2 (Or.inl (List.mem_append.2 (Or.inr ?_)))
    refine List.mem_map.2 ⟨n, ?_, rfl⟩
    unfold allExportNames
    rcases h with h | h | h | h
    · exact List.mem_append.2 (Or.inl (List.mem_append.2 (Or.inl (List.mem_append.2 (Or.inl h)))))
    · exact List.mem_append.2 (Or.inl (List.mem_append.2 (Or.inl (List.mem_append.2 (Or.inr h)))))
    · exact List.mem_append.2 (Or.inl (List.mem_append.2 (Or.inr h)))
    · exact List.mem_append.2 (Or.inr h)

/-! Claim C1: forward-declared records.  In the code the emitter's
forward-declaration section iterates only over the structs map and never
reads `forward_decls`, so names seen only as forward declarations get no
stub. -/

/-- A run that sees `sg_foo` only as a forward declaration and `sg_bar` as
a full definition. -/
def c1Ps : ParserState :=
  processDecl (processDecl initState (.structDecl (pstr "sg_foo") false []))
    (.structDecl (pstr "sg_bar") true [.plain (pstr "x") (pstr "int")])

/-- Counterexample to claim C1 as stated: `sg_foo` is recorded as seen but
undefined, yet the emitted forward-declaration section contains no
placeholder class for it (only fully captured records get one). -/
theorem c1_counterexample :
    (pstr "sg_foo") ∈ c1Ps.forward_decls
    ∧ classLine (pstr "sg_foo") ∉ write_forward_declarations c1Ps.structs
    ∧ classLine (pstr "sg_bar") ∈ write_forward_declarations c1Ps.structs := by
  decide

theorem classLine_starts (n : PyStr) :
    pyPrefixB (pstr "class ") (classLine n) = true := by
  unfold classLine
  have : pstr "class " ++ n ++ pstr "(Structure): pass"
      = pstr "class " ++ (n ++ pstr "(Structure): pass") := by simp
  rw [this]
  exact pyPrefixB_append_self _ _

theorem fwd_banner_no_class_start :
    ([bannerLine, pstr "# Forward Declarations", bannerLine, pstr ""]).all
      (fun l => !pyPrefixB (pstr "class ") l) = true := by decide

/-- Claim C1 as amended: a record seen only as a forward declaration is
recorded in the `forward_decls` set (and captures no fields), but the
emitted forward-declaration section contains a placeholder class exactly
for the fully captured records — names only in the forward-declaration set
get no stub. -/
theorem c1_amended (st : ParserState) (name : PyStr) (rawFields : List RawField)
    (hne : name ≠ [])
    (hval : pyInfixB (pstr "unnamed") name = false
      ∧ pyInfixB (pstr "(") name = false ∧ pyInfixB (pstr " ") name = false) :
    process_struct st name false rawFields
      = { st with forward_decls := addToSet name st.forward_decls }
    ∧ ∀ (structs : List (PyStr × List FieldInfo)) (n : PyStr),
        classLine n ∈ write_forward_declarations structs ↔ n ∈ structs.map (·.1) := by
  constructor
  · unfold process_struct
    simp [hne, hval.1, hval.2.1, hval.2.2]
  · intro structs n
    by_cases hs : structs = []
    · simp [write_forward_declarations, hs]
    · unfold write_forward_declarations
      rw [if_neg hs]
      constructor
      · intro h
        have hstart := classLine_starts n
        rcases List.mem_append.1 h with h' | hlast
        · rcases List.mem_append.1 h' with hban | hmap
          · exfalso
            have hall := List.all_eq_true.1 fwd_banner_no_class_start _ hban
            rw [hstart] at hall
            simp at hall
          · obtain ⟨p, hp, he⟩ := List.mem_map.1 hmap
            have := classLine_inj he
            exact List.mem_map.2 ⟨p, hp, this⟩
        · exfalso
          simp only [List.mem_singleton] at hlast
          rw [hlast] at hstart
          exact absurd hstart (by decide)
      · intro h
        obtain ⟨p, hp, he⟩ := List.mem_map.1 h
        refine List.mem_append.2 (Or.inl (List.mem_append.2 (Or.inr ?_)))
        exact List.mem_map.2 ⟨p, hp, by rw [he]⟩

theorem c1_amended_witness :
    (process_struct samplePs (pstr "sg_environment") false []
      = { samplePs with
          forward_decls := addToSet (pstr "sg_environment") samplePs.forward_decls })
    ∧ (classLine (pstr "sg_desc")
        ∈ write_forward_declarations samplePs.structs
      ↔ (pstr "sg_desc") ∈ samplePs.structs.map (·.1)) :=
  ⟨(c1_amended samplePs (pstr "sg_environment") [] (by decide)
      ⟨by decide, by decide, by decide⟩).1,
   (c1_amended samplePs (pstr "sg_environment") [] (by decide)
      ⟨by decide, by decide, by decide⟩).2 samplePs.structs (pstr "sg_desc")⟩

/-! Claim C3: first-seen-wins across the five maps.  The four maps guarded
by a presence check are monotone; `func_typedefs` is not — entries
synthesized from record fields (and function-pointer typedefs, which the
typedef guard does not cover) are plain dict assignments that overwrite. -/

theorem alGet_alSet {α : Type} (k n : PyStr) (v : α) (m : List (PyStr × α)) :
    alGet k (alSet n v m) = if n = k then some v else alGet k m := by
  induction m with
  | nil =>
    by_cases h : n = k
    · simp only [alSet, alGet, if_pos h]
    · simp only [alSet, alGet, if_neg h]
  | cons p m ih =>
    obtain ⟨k', v'⟩ := p
    simp only [alSet]
    by_cases h1 : k' = n
    · rw [if_pos h1]
      simp only [alGet]
      by_cases h2 : k' = k
      · have hnk : n = k := h1.symm.trans h2
        simp only [if_pos h2, if_pos hnk]
      · have hnk : ¬ n = k := fun he => h2 (h1.trans he)
        simp only [if_neg h2, if_neg hnk]
    · rw [if_neg h1]
      simp only [alGet]
      by_cases h2 : k' = k
      · have hnk : ¬ n = k := fun he => h1 (h2.trans he.symm)
        simp only [if_pos h2, if_neg hnk]
      · simp only [if_neg h2, ih]

/-- Two `_process_struct` runs on records that both contain a
function-pointer field named `cb`. -/
def c3Ps1 : ParserState :=
  processDecl initState
    (.structDecl (pstr "sg_a") true
      [.funcPtr (pstr "cb") (pstr "void (*)(void)") (pstr "void") []])

def c3Ps2 : ParserState :=
  processDecl c3Ps1
    (.structDecl (pstr "sg_b") true
      [.funcPtr (pstr "cb") (pstr "int (*)(void)") (pstr "int") []])

/-- Counterexample to claim C3 as stated: the `_FuncPtr_cb` entry recorded
from the first record is replaced when a second record's field synthesizes
the same name — the function-pointer-type map is not first-seen-wins. -/
theorem c3_counterexample :
    alGet (pstr "_FuncPtr_cb") c3Ps1.func_typedefs = some (pstr "void", [])
    ∧ alGet (pstr "_FuncPtr_cb") c3Ps2.func_typedefs = some (pstr "int", []) := by
  decide

theorem processDecl_preserves_enums (st : ParserState) (d : Decl) (k : PyStr)
    (hk : keyMem k st.enums = true) :
    alGet k (processDecl st d).enums = alGet k st.enums := by
  cases d with
  | enumDecl n vs =>
    simp only [processDecl]
    unfold process_enum
    split_ifs <;> try rfl
    all_goals
      simp only [alGet_alSet]
      split
      · exfalso
        rename_i he
        subst he
        simp_all
      · rfl
  | structDecl n isDef fs =>
    simp only [processDecl]
    unfold process_struct
    split_ifs <;> try rfl
    all_goals dsimp only
    all_goals split <;> rfl
  | typedefDecl n u c =>
    simp only [processDecl]
    unfold process_typedef
    cases u with
    | funcPtr ret args => split_ifs <;> rfl
    | other sp ts =>
      cases c with
      | none =>
        dsimp only
        split_ifs <;> try rfl
        all_goals
          simp only [alGet_alSet]
          split
          · exfalso
            rename_i he
            subst he
            simp_all
          · rfl
      | some tc =>
        cases tc with
        | enumChild vs =>
          dsimp only
          split_ifs <;> try rfl
          all_goals
            simp only [alGet_alSet]
            split
            · exfalso
              rename_i he
              subst he
              simp_all
            · rfl
        | structChild sp2 rfs =>
          dsimp only
          split_ifs <;> try rfl
          all_goals
            simp only [alGet_alSet]
            split
            · exfalso
              rename_i he
              subst he
              simp_all
            · rfl
  | funcDecl n r a =>
    simp only [processDecl]
    unfold process_function
    split_ifs <;> rfl

theorem processDecl_preserves_structs (st : ParserState) (d : Decl) (k : PyStr)
    (hk : keyMem k st.structs = true) :
    alGet k (processDecl st d).structs = alGet k st.structs := by
  cases d with
  | enumDecl n vs =>
    simp only [processDecl]
    unfold process_enum
    split_ifs <;> rfl
  | structDecl n isDef fs =>
    simp only [processDecl]
    unfold process_struct
    split_ifs <;> try rfl
    all_goals dsimp only
    all_goals split <;> try rfl
    all_goals
      simp only [alGet_alSet]
      split
      · exfalso
        rename_i he
        subst he
        simp_all
      · rfl
  | typedefDecl n u c =>
    simp only [processDecl]
    unfold process_typedef
    cases u with
    | funcPtr ret args => split_ifs <;> rfl
    | other sp ts =>
      cases c with
      | none =>
        dsimp only
        split_ifs <;> try rfl
        all_goals
          simp only [alGet_alSet]
          split
          · exfalso
            rename_i he
            subst he
            simp_all
          · rfl
      | some tc =>
        cases tc with
        | enumChild vs =>
          dsimp only
          split_ifs <;> try rfl
          all_goals
            simp only [alGet_alSet]
            split
            · exfalso
              rename_i he
              subst he
              simp_all
            · rfl
        | structChild sp2 rfs =>
          dsimp only
          split_ifs <;> try rfl
          all_goals
            simp only [alGet_alSet]
            split
            · exfalso
              rename_i he
              subst he
              simp_all
            · rfl
  | funcDecl n r a =>
    simp only [processDecl]
    unfold process_function
    split_ifs <;> rfl

theorem processDecl_preserves_typedefs (st : ParserState) (d : Decl) (k : PyStr)
    (hk : keyMem k st.typedefs = true) :
    alGet k (processDecl st d).typedefs = alGet k st.typedefs := by
  cases d with
  | enumDecl n vs =>
    simp only [processDecl]
    unfold process_enum
    split_ifs <;> rfl
  | structDecl n isDef fs =>
    simp only [processDecl]
    unfold process_struct
    split_ifs <;> try rfl
    all_goals dsimp only
    all_goals split <;> rfl
  | typedefDecl n u c =>
    simp only [processDecl]
    unfold process_typedef
    cases u with
    | funcPtr ret args => split_ifs <;> rfl
    | other sp ts =>
      cases c with
      | none =>
        dsimp only
        split_ifs <;> try rfl
        all_goals
          simp only [alGet_alSet]
          split
          · exfalso
            rename_i he
            subst he
            simp_all
          · rfl
      | some tc =>
        cases tc with
        | enumChild vs =>
          dsimp only
          split_ifs <;> try rfl
          all_goals
            simp only [alGet_alSet]
            split
            · exfalso
              rename_i he
              subst he
              simp_all
            · rfl
        | structChild sp2 rfs =>
          dsimp only
          split_ifs <;> try rfl
          all_goals
            simp only [alGet_alSet]
            split
            · exfalso
              rename_i he
              subst he
              simp_all
            · rfl
  | funcDecl n r a =>
    simp only [processDecl]
    unfold process_function
    split_ifs <;> rfl

theorem processDecl_preserves_functions (st : ParserState) (d : Decl) (k : PyStr)
    (hk : keyMem k st.functions = true) :
    alGet k (processDecl st d).functions = alGet k st.functions := by
  cases d with
  | enumDecl n vs =>
    simp only [processDecl]
    unfold process_enum
    split_ifs <;> rfl
  | structDecl n isDef fs =>
    simp only [processDecl]
    unfold process_struct
    split_ifs <;> try rfl
    all_goals dsimp only
    all_goals split <;> rfl
  | typedefDecl n u c =>
    simp only [processDecl]
    unfold process_typedef
    cases u with
    | funcPtr ret args => split_ifs <;> rfl
    | other sp ts =>
      cases c with
      | none =>
        dsimp only
        split_ifs <;> try rfl
        all_goals
          simp only [alGet_alSet]
          split
          · exfalso
            rename_i he
            subst he
            simp_all
          · rfl
      | some tc =>
        cases tc with
        | enumChild vs =>
          dsimp only
          split_ifs <;> try rfl
          all_goals
            simp only [alGet_alSet]
            split
            · exfalso
              rename_i he
              subst he
              simp_all
            · rfl
        | structChild sp2 rfs =>
          dsimp only
          split_ifs <;> try rfl
          all_goals
            simp only [alGet_alSet]
            split
            · exfalso
              rename_i he
              subst he
              simp_all
            · rfl
  | funcDecl n r a =>
    simp only [processDecl]
    unfold process_function
    split_ifs <;> try rfl
    all_goals
      simp only [alGet_alSet]
      split
      · exfalso
        rename_i he
        subst he
        simp_all
      · rfl

/-- Claim C3 as amended: the enums, structs, typedefs and functions maps
are populated monotonically with first-seen-wins semantics — processing any
later declaration never replaces or mutates an entry already present —
while the function-pointer-type map is overwritten in place by later
same-named entries (see the counterexample). -/
theorem c3_amended (st : ParserState) (d : Decl) (k : PyStr) :
    (keyMem k st.enums = true →
      alGet k (processDecl st d).enums = alGet k st.enums)
    ∧ (keyMem k st.structs = true →
      alGet k (processDecl st d).structs = alGet k st.structs)
    ∧ (keyMem k st.typedefs = true →
      alGet k (processDecl st d).typedefs = alGet k st.typedefs)
    ∧ (keyMem k st.functions = true →
      alGet k (processDecl st d).functions = alGet k st.functions) :=
  ⟨processDecl_preserves_enums st d k, processDecl_preserves_structs st d k,
   processDecl_preserves_typedefs st d k, processDecl_preserves_functions st d k⟩

theorem memB_ne {x y : PyStr} {l : List PyStr} (hx : memB x l = true)
    (hy : memB y l = false) : x ≠ y := by
  intro he
  subst he
  rw [hx] at hy
  cases hy

theorem registrarStep_present (env : GenEnv) (lib : LibState)
    (p : PyStr × (PyStr × List (PyStr × PyStr))) :
    (registrarStep env lib p).present = lib.present := by
  unfold registrarStep
  split_ifs <;> rfl

theorem registrarStep_other (env : GenEnv) (lib : LibState)
    (p : PyStr × (PyStr × List (PyStr × PyStr))) (f : PyStr) (hne : p.1 ≠ f) :
    alGet f (registrarStep env lib p).restypes = alGet f lib.restypes
    ∧ alGet f (registrarStep env lib p).argtypesMap = alGet f lib.argtypesMap := by
  unfold registrarStep
  split_ifs with h
  · constructor <;> (simp only [alGet_alSet]; rw [if_neg hne])
  · exact ⟨rfl, rfl⟩

theorem foldl_registrar_other (env : GenEnv)
    (L : List (PyStr × (PyStr × List (PyStr × PyStr)))) (lib : LibState)
    (f : PyStr) (hf : ∀ p ∈ L, p.1 ≠ f) :
    alGet f (List.foldl (registrarStep env) lib L).restypes = alGet f lib.restypes
    ∧ alGet f (List.foldl (registrarStep env) lib L).argtypesMap
        = alGet f lib.argtypesMap := by
  induction L generalizing lib with
  | nil => exact ⟨rfl, rfl⟩
  | cons p L ih =>
    simp only [List.foldl]
    have hstep := registrarStep_other env lib p f (hf p (List.mem_cons_self p L))
    have hrest := ih (registrarStep env lib p) (fun q hq => hf q (List.mem_cons_of_mem p hq))
    exact ⟨hrest.1.trans hstep.1, hrest.2.trans hstep.2⟩

theorem foldl_registrar_present (env : GenEnv) :
    ∀ (L : List (PyStr × (PyStr × List (PyStr × PyStr)))) (f ret : PyStr)
      (args : List (PyStr × PyStr)),
      (L.map Prod.fst).Nodup → alGet f L = some (ret, args) →
      ∀ lib : LibState, memB f lib.present = true →
      alGet f (List.foldl (registrarStep env) lib L).restypes = some (cvt env ret)
      ∧ alGet f (List.foldl (registrarStep env) lib L).argtypesMap
          = some (args.map (fun a => cvt env a.2)) := by
  intro L
  induction L with
  | nil =>
    intro f ret args _ hfind _ _
    cases hfind
  | cons p L ih =>
    intro f ret args hnd hfind lib hpres
    simp only [List.foldl]
    by_cases hp : p.1 = f
    · have hval : p.2 = (ret, args) := by
        unfold alGet at hfind
        rw [if_pos hp] at hfind
        exact Option.some.inj hfind
      have hnotin : ∀ q ∈ L, q.1 ≠ f := by
        intro q hq he
        have hmem : f ∈ L.map Prod.fst := List.mem_map.2 ⟨q, hq, he⟩
        rw [List.map_cons] at hnd
        exact (List.nodup_cons.1 hnd).1 (hp ▸ hmem)
      have hother := foldl_registrar_other env L (registrarStep env lib p) f hnotin
      have hstep : alGet f (registrarStep env lib p).restypes = some (cvt env ret)
          ∧ alGet f (registrarStep env lib p).argtypesMap
              = some (args.map (fun a => cvt env a.2)) := by
        unfold registrarStep
        rw [if_pos (by rw [hp]; exact hpres)]
        rw [hval]
        constructor <;> (simp only [alGet_alSet]; rw [if_pos hp])
      exact ⟨hother.1.trans hstep.1, hother.2.trans hstep.2⟩
    · have hfind2 : alGet f L = some (ret, args) := by
        unfold alGet at hfind
        rw [if_neg hp] at hfind
        exact hfind
      have hnd2 : (L.map Prod.fst).Nodup := by
        rw [List.map_cons] at hnd
        exact (List.nodup_cons.1 hnd).2
      have hpres2 : memB f (registrarStep env lib p).present = true := by
        rw [registrarStep_present]
        exact hpres
      exact ih f ret args hnd2 hfind2 (registrarStep env lib p) hpres2

/-- Claim C6: the emitted registration code binds a function's return and
parameter types only under the `hasattr` guard — a function whose symbol is
absent from the loaded library is left unbound (its attributes are exactly
what they were), a present captured function is bound to its converted
return and ordered parameter types, and the per-function block places the
guard line immediately before the assignment lines, so the registrar (and
hence the load) always completes. -/
theorem c6_guarded_binding (env : GenEnv) (lib : LibState) (f : PyStr) :
    (memB f lib.present = false →
      alGet f (runRegistrar env lib).restypes = alGet f lib.restypes
      ∧ alGet f (runRegistrar env lib).argtypesMap = alGet f lib.argtypesMap)
    ∧ (∀ ret args, alGet f env.functions = some (ret, args) →
        (env.functions.map Prod.fst).Nodup → memB f lib.present = true →
        alGet f (runRegistrar env lib).restypes = some (cvt env ret)
        ∧ alGet f (runRegistrar env lib).argtypesMap
            = some (args.map (fun a => cvt env a.2)))
    ∧ (∀ p ∈ env.functions,
        (funcBindingBlock env p).get? 1
          = some (pstr "    if hasattr(lib, '" ++ p.1 ++ pstr "'):")
        ∧ (funcBindingBlock env p).get? 2
          = some (pstr "        lib." ++ p.1 ++ pstr ".restype = " ++ cvt env p.2.1)) := by
  refine ⟨?_, ?_, ?_⟩
  · intro hab
    unfold runRegistrar
    generalize env.functions = L
    induction L generalizing lib with
    | nil => exact ⟨rfl, rfl⟩
    | cons p L ih =>
      simp only [List.foldl]
      have hstep : alGet f (registrarStep env lib p).restypes = alGet f lib.restypes
          ∧ alGet f (registrarStep env lib p).argtypesMap = alGet f lib.argtypesMap := by
        unfold registrarStep
        split_ifs with h
        · have hne := memB_ne h hab
          constructor <;> (simp only [alGet_alSet]; rw [if_neg hne])
        · exact ⟨rfl, rfl⟩
      have hrest := ih (registrarStep env lib p)
        (by rw [registrarStep_present]; exact hab)
      exact ⟨hrest.1.trans hstep.1, hrest.2.trans hstep.2⟩
  · intro ret args hfind hnd hpres
    exact foldl_registrar_present env env.functions f ret args hnd hfind lib hpres
  · intro p _
    constructor <;> rfl

/-! Characterisations of the Boolean string tests. -/

theorem pyPrefixB_iff {p s : PyStr} : pyPrefixB p s = true ↔ p <+: s := by
  induction p generalizing s with
  | nil => simp [pyPrefixB]
  | cons c p ih =>
    cases s with
    | nil =>
      simp [pyPrefixB]
    | cons d t =>
      simp only [pyPrefixB, Bool.and_eq_true, decide_eq_true_eq, ih,
        List.cons_prefix_cons]

theorem pyInfixB_iff {pat s : PyStr} : pyInfixB pat s = true ↔ pat <:+: s := by
  induction s with
  | nil =>
    simp only [pyInfixB, pyPrefixB_iff]
    constructor
    · intro h
      exact h.isInfix
    · intro h
      exact (List.infix_nil.1 h) ▸ List.prefix_refl []
  | cons c t ih =>
    simp only [pyInfixB, Bool.or_eq_true, pyPrefixB_iff, ih]
    constructor
    · rintro (h | h)
      · exact h.isInfix
      · exact List.infix_cons h
    · intro h
      rcases h with ⟨u, v, huv⟩
      cases u with
      | nil =>
        exact Or.inl ⟨v, by simpa using huv⟩
      | cons x u =>
        right
        simp only [List.cons_append, List.cons.injEq] at huv
        exact ⟨u, v, huv.2⟩

theorem pyEndsWithB_iff {s p : PyStr} : pyEndsWithB s p = true ↔ p <:+ s := by
  unfold pyEndsWithB
  rw [pyPrefixB_iff]
  exact List.reverse_prefix

theorem pyPrefixB_mem {p s : PyStr} (h : pyPrefixB p s = true) {c : Char}
    (hc : c ∈ p) : c ∈ s :=
  (pyPrefixB_iff.1 h).subset hc

theorem pyInfixB_false_of_char {pat s : PyStr} {c : Char} (hc : c ∈ pat)
    (hs : c ∉ s) : pyInfixB pat s = false := by
  cases h : pyInfixB pat s with
  | false => rfl
  | true => exact absurd ((pyInfixB_iff.1 h).subset hc) hs

/-- A prefix of an append is a prefix of the left part or extends it. -/
theorem prefix_append_split {pat A B : PyStr} (h : pat <+: A ++ B) :
    pat <+: A ∨ ∃ q, pat = A ++ q ∧ q <+: B := by
  induction A generalizing pat with
  | nil =>
    right
    exact ⟨pat, by simp, by simpa using h⟩
  | cons a A ih =>
    cases pat with
    | nil => exact Or.inl (List.nil_prefix)
    | cons x pat =>
      rw [List.cons_append, List.cons_prefix_cons] at h
      obtain ⟨hx, hrest⟩ := h
      rcases ih hrest with h' | ⟨q, hq, hqB⟩
      · exact Or.inl (by rw [hx]; exact List.cons_prefix_cons.2 ⟨rfl, h'⟩)
      · right
        exact ⟨q, by rw [hx, hq, List.cons_append], hqB⟩

/-- Splitting an occurrence across an append: the pattern occurs in the
left part, in the right part, or straddles the boundary (a nonempty suffix
of the left part followed by a nonempty prefix of the right part). -/
theorem infix_append_split {pat A B : PyStr} (h : pat <:+: A ++ B) :
    pat <:+: A ∨ pat <:+: B
    ∨ ∃ p q, pat = p ++ q ∧ p ≠ [] ∧ q ≠ [] ∧ p <:+ A ∧ q <+: B := by
  induction A with
  | nil =>
    right; left
    simpa using h
  | cons a A ih =>
    rw [List.cons_append] at h
    rcases List.infix_cons_iff.1 h with hpre | hinf
    · -- pat is a prefix of a :: (A ++ B)
      cases pat with
      | nil => exact Or.inl (List.nil_infix)
      | cons x pat =>
        rw [List.cons_prefix_cons] at hpre
        obtain ⟨hx, hrest⟩ := hpre
        rcases prefix_append_split hrest with h' | ⟨q, hq, hqB⟩
        · exact Or.inl (by rw [hx]; exact (List.cons_prefix_cons.2 ⟨rfl, h'⟩).isInfix)
        · cases q with
          | nil =>
            left
            rw [hx, hq]
            simp only [List.append_nil]
            exact List.prefix_refl (a :: A) |>.isInfix
          | cons y q =>
            right; right
            refine ⟨a :: A, y :: q, ?_, by simp, by simp, List.suffix_refl _, hqB⟩
            rw [hx, hq, List.cons_append]
    · rcases ih hinf with h' | h' | ⟨p, q, hpq, hp, hq, hsuf, hpre⟩
      · exact Or.inl (List.infix_cons h')
      · exact Or.inr (Or.inl h')
      · exact Or.inr (Or.inr ⟨p, q, hpq, hp, hq, hsuf.trans (List.suffix_cons a A), hpre⟩)

/-! Lemmas for the emission-time type-conversion analysis (claim C2). -/

theorem dropWhile_eq_self_of_head {s : PyStr}
    (h : ∀ c, s.head? = some c → isPySpace c = false) :
    s.dropWhile isPySpace = s := by
  cases s with
  | nil => rfl
  | cons c t =>
    rw [List.dropWhile_cons, if_neg]
    rw [h c rfl]
    simp

theorem pyStrip_eq_self {s : PyStr}
    (h1 : ∀ c, s.head? = some c → isPySpace c = false)
    (h2 : ∀ c, s.getLast? = some c → isPySpace c = false) : pyStrip s = s := by
  unfold pyStrip
  rw [dropWhile_eq_self_of_head h1]
  rw [dropWhile_eq_self_of_head (fun c hc => h2 c (by rwa [List.head?_reverse] at hc))]
  exact List.reverse_reverse s

theorem pyReplaceAux_eq_self (pat repl : PyStr) :
    ∀ f s, pyInfixB pat s = false → pyReplaceAux pat repl f s = s := by
  intro f
  induction f with
  | zero =>
    intro s _
    rfl
  | succ f ih =>
    intro s hs
    cases s with
    | nil => rfl
    | cons c t =>
      have hsplit := hs
      unfold pyInfixB at hsplit
      obtain ⟨hnp, hnt⟩ := Bool.or_eq_false_iff.1 hsplit
      rw [pyReplaceAux, if_neg (by simp [hnp])]
      congr 1
      exact ih t hnt

theorem pyReplace_eq_self {pat repl s : PyStr}
    (h : pyInfixB pat s = false) : pyReplace pat repl s = s :=
  pyReplaceAux_eq_self pat repl s.length s h

theorem ident_not_mem {S : PyStr} (hid : ∀ c ∈ S, isIdChar c = true) {x : Char}
    (hx : isIdChar x = false) : x ∉ S := by
  intro hmem
  rw [hid x hmem] at hx
  cases hx

/-- Breaking a straddling occurrence of `"const "`: if a nonempty piece of
it precedes the space, that piece is `"const"` itself. -/
theorem const_split {p q' : PyStr} (hp : p ≠ [])
    (h : p ++ ' ' :: q' = pstr "const ") : p = pstr "const" := by
  have hl : pstr "const " = ['c', 'o', 'n', 's', 't', ' '] := rfl
  rw [hl] at h
  rcases p with _ | ⟨a, p⟩
  · exact absurd rfl hp
  rcases p with _ | ⟨b, p⟩
  · simp only [List.cons_append, List.nil_append, List.cons.injEq] at h
    exact absurd h.2.1 (by decide)
  rcases p with _ | ⟨c, p⟩
  · simp only [List.cons_append, List.nil_append, List.cons.injEq] at h
    exact absurd h.2.2.1 (by decide)
  rcases p with _ | ⟨d, p⟩
  · simp only [List.cons_append, List.nil_append, List.cons.injEq] at h
    exact absurd h.2.2.2.1 (by decide)
  rcases p with _ | ⟨e, p⟩
  · simp only [List.cons_append, List.nil_append, List.cons.injEq] at h
    exact absurd h.2.2.2.2.1 (by decide)
  rcases p with _ | ⟨f, p⟩
  · simp only [List.cons_append, List.nil_append, List.cons.injEq] at h
    obtain ⟨h1, h2, h3, h4, h5, _⟩ := h
    rw [h1, h2, h3, h4, h5]
    rfl
  · simp only [List.cons_append, List.cons.injEq] at h
    obtain ⟨_, _, _, _, _, h6, h7⟩ := h
    exact absurd (congrArg List.length h7) (by simp)

/-- No occurrence of `"const "` in an identifier followed by a tail that
starts with a space and contains no letter `c`, provided the identifier
does not end in `const`. -/
theorem no_const_occurrence {S T : PyStr}
    (hid : ∀ c ∈ S, isIdChar c = true)
    (hconst : pyEndsWithB S (pstr "const") = false)
    (hcT : 'c' ∉ T) (hT : T.head? = some ' ') :
    pyInfixB (pstr "const ") (S ++ T) = false := by
  cases h : pyInfixB (pstr "const ") (S ++ T) with
  | false => rfl
  | true =>
    exfalso
    have hinf := pyInfixB_iff.1 h
    rcases infix_append_split hinf with hA | hB | ⟨p, q, hpq, hp, hq, hsuf, hpre⟩
    · exact ident_not_mem hid (by decide) (hA.subset (by decide : ' ' ∈ pstr "const "))
    · exact hcT (hB.subset (by decide : 'c' ∈ pstr "const "))
    · cases q with
      | nil => exact hq rfl
      | cons y q' =>
        have hy : y = ' ' := by
          obtain ⟨t2, ht2⟩ := hpre
          rw [← ht2] at hT
          simpa using hT
        subst hy
        have hpc : p = pstr "const" := const_split hp hpq.symm
        rw [hpc] at hsuf
        rw [pyEndsWithB_iff.2 hsuf] at hconst
        cases hconst

theorem alGet_none_of_char {α : Type} {c : Char} {m : List (PyStr × α)} {s : PyStr}
    (hc : c ∈ s) (hkeys : ∀ p ∈ m, c ∉ p.1) : alGet s m = none := by
  induction m with
  | nil => rfl
  | cons p m ih =>
    obtain ⟨k, v⟩ := p
    unfold alGet
    rw [if_neg]
    · exact ih (fun q hq => hkeys q (List.mem_cons_of_mem _ hq))
    · intro he
      subst he
      exact hkeys (k, v) (List.mem_cons_self _ _) hc

theorem keyMem_false_of_char {α : Type} {c : Char} {m : List (PyStr × α)} {s : PyStr}
    (hc : c ∈ s) (hkeys : ∀ p ∈ m, c ∉ p.1) : keyMem s m = false := by
  unfold keyMem
  rw [alGet_none_of_char hc hkeys]
  rfl

theorem memB_false_of_char {c : Char} {l : List PyStr} {s : PyStr}
    (hc : c ∈ s) (hl : ∀ g ∈ l, c ∉ g) : memB s l = false := by
  induction l with
  | nil => rfl
  | cons g l ih =>
    unfold memB
    rw [if_neg]
    · exact ih (fun g' hg' => hl g' (List.mem_cons_of_mem _ hg'))
    · intro he
      subst he
      exact hl s (List.mem_cons_self _ _) hc

theorem ctypes_no_bracket : ∀ p ∈ C_TO_CTYPES, '[' ∉ p.1 := by decide

theorem ctypes_no_star : ∀ p ∈ C_TO_CTYPES, '*' ∉ p.1 := by decide

theorem isPySpace_of_isIdChar {c : Char} (h : isIdChar c = true) :
    isPySpace c = false := by
  cases hsp : isPySpace c with
  | false => rfl
  | true =>
    exfalso
    unfold isPySpace at hsp
    simp only [Bool.or_eq_true, decide_eq_true_eq] at hsp
    rcases hsp with ((((rfl | rfl) | rfl) | rfl) | rfl) | rfl <;>
      exact absurd h (by decide)

theorem fpTail_false {s : PyStr} (h : '(' ∉ s) : fpTail s = false := by
  unfold fpTail
  cases hd : s.dropWhile isPySpace with
  | nil => rfl
  | cons x r =>
    have hx : x ∈ s := (List.dropWhile_sublist _).mem (hd ▸ List.mem_cons_self x r)
    split
    · rename_i r1 heq
      rw [List.cons.injEq] at heq
      exact absurd (heq.1 ▸ hx) h
    · rfl

theorem funcPtrMatch_false {s : PyStr} (h : '(' ∉ s) : funcPtrMatch s = false := by
  induction s with
  | nil => rfl
  | cons c t ih =>
    unfold funcPtrMatch
    rw [fpTail_false (fun hm => h (List.mem_cons_of_mem c hm)),
      ih (fun hm => h (List.mem_cons_of_mem c hm))]
    simp

theorem arrMatchFrom_none {s : PyStr} (h : '[' ∉ s) : arrMatchFrom s = none := by
  induction s with
  | nil => rfl
  | cons c t ih =>
    have ht : arrMatchFrom t = none := ih (fun hm => h (List.mem_cons_of_mem c hm))
    have hc : ¬ c = '[' := fun he => h (he ▸ List.mem_cons_self c t)
    unfold arrMatchFrom
    rw [ht]
    simp [hc]

theorem takeWhile_all_append {p : Char → Bool} {ds : PyStr} (x : Char) (r : PyStr)
    (hds : ∀ c ∈ ds, p c = true) (hx : p x = false) :
    (ds ++ x :: r).takeWhile p = ds ∧ (ds ++ x :: r).dropWhile p = x :: r := by
  induction ds with
  | nil =>
    constructor <;> simp [List.takeWhile_cons, List.dropWhile_cons, hx]
  | cons d ds ih =>
    have hd : p d = true := hds d (List.mem_cons_self _ _)
    have ih' := ih (fun c hc => hds c (List.mem_cons_of_mem _ hc))
    constructor
    · simp [List.takeWhile_cons, hd, ih'.1]
    · simp [List.dropWhile_cons, hd, ih'.2]

theorem tryDigits_append {ds : PyStr} (r : PyStr) (hne : ds ≠ [])
    (hds : ∀ c ∈ ds, Char.isDigit c = true) :
    tryDigits (ds ++ ']' :: r) = some ds := by
  obtain ⟨h1, h2⟩ := takeWhile_all_append ']' r hds (by decide)
  unfold tryDigits
  simp only [h1, h2, if_neg hne]

theorem arrMatchFrom_boundary {A ds : PyStr} (hA1 : '[' ∉ A) (hA2 : '\n' ∉ A)
    (hne : ds ≠ []) (hds : ∀ c ∈ ds, Char.isDigit c = true) :
    arrMatchFrom (A ++ '[' :: (ds ++ [']'])) = some (A, ds) := by
  induction A with
  | nil =>
    have hnone : arrMatchFrom (ds ++ [']']) = none := by
      apply arrMatchFrom_none
      intro hm
      rcases List.mem_append.1 hm with hmem | hmem
      · exact absurd (hds _ hmem) (by decide)
      · simp at hmem
    simp only [List.nil_append]
    unfold arrMatchFrom
    rw [hnone]
    simp [tryDigits_append [] hne hds]
  | cons a A ih =>
    have ih' := ih (fun hm => hA1 (List.mem_cons_of_mem a hm))
      (fun hm => hA2 (List.mem_cons_of_mem a hm))
    have ha : ¬ a = '\n' := fun he => hA2 (he ▸ List.mem_cons_self a A)
    rw [List.cons_append]
    unfold arrMatchFrom
    rw [ih']
    simp [ha]

theorem arrMatch_eq {A ds s : PyStr} (hs : arrMatchFrom s = some (A, ds))
    (hA : A ≠ []) : arrMatch s = some (A, ds) := by
  unfold arrMatch
  rw [hs]
  cases A with
  | nil => exact absurd rfl hA
  | cons a A => rfl

theorem digitChar_isDigit {d : Nat} (h : d < 10) : (digitChar d).isDigit = true := by
  interval_cases d <;> decide

theorem digitChar_val {d : Nat} (h : d < 10) : (digitChar d).toNat - 48 = d := by
  interval_cases d <;> decide

theorem natReprAux_digits : ∀ f n, ∀ c ∈ natReprAux f n, Char.isDigit c = true := by
  intro f
  induction f with
  | zero =>
    intro n c hc
    simp [natReprAux] at hc
  | succ f ih =>
    intro n c hc
    cases n with
    | zero => simp [natReprAux] at hc
    | succ m =>
      rw [natReprAux] at hc
      rcases List.mem_append.1 hc with h | h
      · exact ih _ c h
      · simp only [List.mem_singleton] at h
        subst h
        exact digitChar_isDigit (Nat.mod_lt _ (by norm_num))

theorem natRepr_digits (n : Nat) : ∀ c ∈ natRepr n, Char.isDigit c = true := by
  unfold natRepr
  split_ifs
  · intro c hc
    simp only [List.mem_singleton] at hc
    subst hc
    decide
  · exact natReprAux_digits n n

theorem natRepr_ne_nil (n : Nat) : natRepr n ≠ [] := by
  unfold natRepr
  split_ifs with h
  · simp
  · cases hn : n with
    | zero => exact absurd hn h
    | succ m =>
      rw [natReprAux]
      simp

theorem natOfDigits_concat (l : PyStr) (c : Char) :
    natOfDigits (l ++ [c]) = natOfDigits l * 10 + (c.toNat - 48) := by
  unfold natOfDigits
  rw [List.foldl_append]
  rfl

theorem natReprAux_correct : ∀ f n, 1 ≤ n → n ≤ f → natOfDigits (natReprAux f n) = n := by
  intro f
  induction f with
  | zero =>
    intro n h1 h2
    omega
  | succ f ih =>
    intro n h1 h2
    cases n with
    | zero => omega
    | succ m =>
      rw [natReprAux, natOfDigits_concat]
      rw [digitChar_val (Nat.mod_lt _ (by norm_num))]
      by_cases hq : (m + 1) / 10 = 0
      · rw [hq]
        have he : natReprAux f 0 = [] := by cases f <;> simp [natReprAux]
        rw [he]
        have h0 : natOfDigits [] = 0 := rfl
        rw [h0]
        have := Nat.div_add_mod (m + 1) 10
        omega
      · have hlt : (m + 1) / 10 < m + 1 := Nat.div_lt_self (by omega) (by norm_num)
        rw [ih _ (by omega) (by omega)]
        have := Nat.div_add_mod (m + 1) 10
        omega

theorem natRepr_roundtrip {n : Nat} (h : 1 ≤ n) : natOfDigits (natRepr n) = n := by
  unfold natRepr
  rw [if_neg (by omega)]
  exact natReprAux_correct n n h le_rfl

theorem digit_ne_c {x : Char} (h : Char.isDigit x = true) : x ≠ 'c' := by
  intro he
  subst he
  exact absurd h (by decide)

theorem digit_ne_bracket {x : Char} (h : Char.isDigit x = true) : x ≠ '[' := by
  intro he
  subst he
  exact absurd h (by decide)

theorem digit_ne_paren {x : Char} (h : Char.isDigit x = true) : x ≠ '(' := by
  intro he
  subst he
  exact absurd h (by decide)

theorem digit_ne_nl {x : Char} (h : Char.isDigit x = true) : x ≠ '\n' := by
  intro he
  subst he
  exact absurd h (by decide)

/-- Well-formed symbol-table keys: every name the conversion looks up is a
plain C identifier (the parser's validity filters and C's grammar ensure
this for every real header). -/
def wfKeys (env : GenEnv) : Prop :=
  (∀ p ∈ env.enums, ∀ c ∈ p.1, isIdChar c = true)
  ∧ (∀ p ∈ env.structs, ∀ c ∈ p.1, isIdChar c = true)
  ∧ (∀ p ∈ env.typedefs, ∀ c ∈ p.1, isIdChar c = true)
  ∧ (∀ p ∈ env.func_typedefs, ∀ c ∈ p.1, isIdChar c = true)
  ∧ (∀ g ∈ env.generated_types, ∀ c ∈ g, isIdChar c = true)

theorem pyEndsWithB_concat (X : PyStr) (a b : Char) :
    pyEndsWithB (X ++ [a]) [b] = decide (b = a) := by
  unfold pyEndsWithB
  rw [List.reverse_append]
  show pyPrefixB [b] (a :: X.reverse) = decide (b = a)
  unfold pyPrefixB
  simp [pyPrefixB]

theorem pyStrip_ident_space {S : PyStr} (hS : S ≠ [])
    (hid : ∀ c ∈ S, isIdChar c = true) : pyStrip (S ++ [' ']) = S := by
  unfold pyStrip
  have hhead : (S ++ [' ']).dropWhile isPySpace = S ++ [' '] := by
    apply dropWhile_eq_self_of_head
    intro c hc
    cases S with
    | nil => exact absurd rfl hS
    | cons a t =>
      simp only [List.cons_append, List.head?_cons, Option.some.injEq] at hc
      subst hc
      exact isPySpace_of_isIdChar (hid a (List.mem_cons_self _ _))
  rw [hhead, List.reverse_append]
  show (((' ' : Char) :: S.reverse).dropWhile isPySpace).reverse = S
  rw [List.dropWhile_cons, if_pos (by decide)]
  rw [dropWhile_eq_self_of_head]
  · exact List.reverse_reverse S
  · intro c hc
    rw [List.head?_reverse] at hc
    obtain ⟨hne, heq⟩ := List.mem_getLast?_eq_getLast
      (show c ∈ S.getLast? by rw [hc]; rfl)
    have hcS : c ∈ S := heq ▸ List.getLast_mem hne
    exact isPySpace_of_isIdChar (hid c hcS)

theorem head_not_space {S T : PyStr} (hS : S ≠ [])
    (hid : ∀ c ∈ S, isIdChar c = true) :
    ∀ c, (S ++ T).head? = some c → isPySpace c = false := by
  intro c hc
  cases S with
  | nil => exact absurd rfl hS
  | cons a t =>
    simp only [List.cons_append, List.head?_cons, Option.some.injEq] at hc
    subst hc
    exact isPySpace_of_isIdChar (hid a (List.mem_cons_self _ _))

theorem pyStrip_ident_star {S : PyStr} (hS : S ≠ [])
    (hid : ∀ c ∈ S, isIdChar c = true) :
    pyStrip (S ++ pstr " *") = S ++ pstr " *" := by
  have hsplit : S ++ pstr " *" = (S ++ [' ']) ++ ['*'] := by
    rw [List.append_assoc]
    rfl
  apply pyStrip_eq_self
  · exact head_not_space hS hid
  · intro c hc
    rw [hsplit, List.getLast?_concat] at hc
    cases hc
    decide

/-- Conversion of the element spelling `S *` for a known record `S`:
resolves through the pointer branch to `POINTER(S)`. -/
theorem c2_shape_inner (env : GenEnv) (S : PyStr)
    (hid : ∀ c ∈ S, isIdChar c = true) (hS : S ≠ [])
    (hconst : pyEndsWithB S (pstr "const") = false)
    (hvoid : pyInfixB (pstr "void") S = false)
    (hchar : pyInfixB (pstr "char") S = false)
    (hmem : keyMem S env.structs = true ∨ memB S env.generated_types = true) :
    convertShape env (S ++ pstr " *") = Sum.inl (pstr "POINTER(" ++ S ++ pstr ")") := by
  have hsplit : S ++ pstr " *" = (S ++ [' ']) ++ ['*'] := by
    rw [List.append_assoc]
    rfl
  have hstripA : pyStrip (S ++ pstr " *") = S ++ pstr " *" :=
    pyStrip_ident_star hS hid
  have hrepA : pyReplace (pstr "const ") [] (S ++ pstr " *") = S ++ pstr " *" := by
    apply pyReplace_eq_self
    exact no_const_occurrence hid hconst (by decide) rfl
  have hfp : funcPtrMatch (S ++ pstr " *") = false := by
    apply funcPtrMatch_false
    intro hmem'
    rcases List.mem_append.1 hmem' with h | h
    · exact ident_not_mem hid (by decide) h
    · simp [pstr] at h
  have hCT : alGet (S ++ pstr " *") C_TO_CTYPES = none :=
    alGet_none_of_char (List.mem_append.2 (Or.inr (by decide))) ctypes_no_star
  have hends : pyEndsWithB (S ++ pstr " *") (pstr "*") = true := by
    rw [hsplit]
    have : pstr "*" = ['*'] := rfl
    rw [this, pyEndsWithB_concat]
    decide
  have hdrop : (S ++ pstr " *").dropLast = S ++ [' '] := by
    rw [hsplit]
    exact List.dropLast_concat
  have hstripBase : pyStrip (S ++ [' ']) = S := pyStrip_ident_space hS hid
  have hrepS : pyReplace (pstr "const ") [] S = S :=
    pyReplace_eq_self (pyInfixB_false_of_char (c := ' ') (by decide)
      (ident_not_mem hid (by decide)))
  simp only [convertShape]
  rw [hstripA, hrepA, hstripA]
  rw [if_neg (by simp [hfp])]
  rw [hCT]
  rw [if_pos hends]
  rw [hdrop, hstripBase, hrepS]
  rw [if_neg (by simp [hvoid])]
  rw [if_neg (by simp [hchar])]
  rw [if_pos (by rcases hmem with h | h <;> simp [h])]

/-- Conversion of the spelling `S *[n]` for well-formed tables: resolved by
the trailing-array rule (the pointer rule never fires on a string ending in
a bracketed length), recursing on the element spelling `S *`. -/
theorem c2_shape_outer (env : GenEnv) (S : PyStr) (n : Nat)
    (hid : ∀ c ∈ S, isIdChar c = true) (hS : S ≠ [])
    (hconst : pyEndsWithB S (pstr "const") = false)
    (hwf : wfKeys env) (hn : 1 ≤ n) :
    convertShape env (S ++ pstr " *[" ++ natRepr n ++ pstr "]")
      = Sum.inr (S ++ pstr " *", pstr " * " ++ natRepr n) := by
  have hds : ∀ c ∈ natRepr n, Char.isDigit c = true := natRepr_digits n
  have hdsne : natRepr n ≠ [] := natRepr_ne_nil n
  have hps1 : pstr " *[" = [' ', '*', '['] := rfl
  have hps2 : pstr "]" = [']'] := rfl
  have hps3 : pstr " *" = [' ', '*'] := rfl
  have hsplit : S ++ pstr " *[" ++ natRepr n ++ pstr "]"
      = S ++ (' ' :: '*' :: '[' :: (natRepr n ++ [']'])) := by
    rw [hps1, hps2]
    simp [List.append_assoc]
  have hmemT : ∀ c ∈ (' ' :: '*' :: '[' :: (natRepr n ++ [']']) : PyStr),
      c = ' ' ∨ c = '*' ∨ c = '[' ∨ c = ']' ∨ Char.isDigit c = true := by
    intro c hc
    simp only [List.mem_cons, List.mem_append, List.not_mem_nil, or_false] at hc
    rcases hc with rfl | rfl | rfl | hdig | rfl
    · exact Or.inl rfl
    · exact Or.inr (Or.inl rfl)
    · exact Or.inr (Or.inr (Or.inl rfl))
    · exact Or.inr (Or.inr (Or.inr (Or.inr (hds c hdig))))
    · exact Or.inr (Or.inr (Or.inr (Or.inl rfl)))
  have hmemS : ∀ c ∈ S ++ pstr " *[" ++ natRepr n ++ pstr "]",
      c ∈ S ∨ c = ' ' ∨ c = '*' ∨ c = '[' ∨ c = ']' ∨ Char.isDigit c = true := by
    intro c hc
    rw [hsplit] at hc
    rcases List.mem_append.1 hc with h | h
    · exact Or.inl h
    · exact Or.inr (hmemT c h)
  have hbr : '[' ∈ S ++ pstr " *[" ++ natRepr n ++ pstr "]" := by
    rw [hsplit]
    refine List.mem_append.2 (Or.inr ?_)
    simp
  have hre2 : S ++ pstr " *[" ++ natRepr n ++ pstr "]"
      = (S ++ (' ' :: '*' :: '[' :: natRepr n)) ++ [']'] := by
    rw [hps1, hps2]
    simp [List.append_assoc]
  have hstripS : pyStrip (S ++ pstr " *[" ++ natRepr n ++ pstr "]")
      = S ++ pstr " *[" ++ natRepr n ++ pstr "]" := by
    apply pyStrip_eq_self
    · intro c hc
      rw [hsplit] at hc
      exact head_not_space hS hid c hc
    · intro c hc
      rw [hre2, List.getLast?_concat] at hc
      cases hc
      decide
  have hreps : pyReplace (pstr "const ") []
        (S ++ pstr " *[" ++ natRepr n ++ pstr "]")
      = S ++ pstr " *[" ++ natRepr n ++ pstr "]" := by
    rw [hsplit]
    apply pyReplace_eq_self
    apply no_const_occurrence hid hconst
    · intro hc
      rcases hmemT 'c' hc with h | h | h | h | h
      · exact absurd h (by decide)
      · exact absurd h (by decide)
      · exact absurd h (by decide)
      · exact absurd h (by decide)
      · exact absurd h (by decide)
    · rfl
  have hfp : funcPtrMatch (S ++ pstr " *[" ++ natRepr n ++ pstr "]") = false := by
    apply funcPtrMatch_false
    intro hmem
    rcases hmemS '(' hmem with h | h | h | h | h | h
    · exact ident_not_mem hid (by decide) h
    · exact absurd h (by decide)
    · exact absurd h (by decide)
    · exact absurd h (by decide)
    · exact absurd h (by decide)
    · exact absurd h (by decide)
  have hCT : alGet (S ++ pstr " *[" ++ natRepr n ++ pstr "]") C_TO_CTYPES = none :=
    alGet_none_of_char hbr ctypes_no_bracket
  have hends : pyEndsWithB (S ++ pstr " *[" ++ natRepr n ++ pstr "]") (pstr "*")
      = false := by
    rw [hre2]
    have h1 : pstr "*" = ['*'] := rfl
    rw [h1, pyEndsWithB_concat]
    decide
  have hkeq : keyMem (S ++ pstr " *[" ++ natRepr n ++ pstr "]") env.structs = false :=
    keyMem_false_of_char hbr
      (fun p hp => ident_not_mem (hwf.2.1 p hp) (by decide))
  have hgeq : memB (S ++ pstr " *[" ++ natRepr n ++ pstr "]") env.generated_types
      = false :=
    memB_false_of_char hbr
      (fun g hg => ident_not_mem (hwf.2.2.2.2 g hg) (by decide))
  have heeq : keyMem (S ++ pstr " *[" ++ natRepr n ++ pstr "]") env.enums = false :=
    keyMem_false_of_char hbr
      (fun p hp => ident_not_mem (hwf.1 p hp) (by decide))
  have hteq : alGet (S ++ pstr " *[" ++ natRepr n ++ pstr "]") env.typedefs = none :=
    alGet_none_of_char hbr
      (fun p hp => ident_not_mem (hwf.2.2.1 p hp) (by decide))
  have hfteq : keyMem (S ++ pstr " *[" ++ natRepr n ++ pstr "]") env.func_typedefs
      = false :=
    keyMem_false_of_char hbr
      (fun p hp => ident_not_mem (hwf.2.2.2.1 p hp) (by decide))
  have harr : arrMatch (S ++ pstr " *[" ++ natRepr n ++ pstr "]")
      = some (S ++ pstr " *", natRepr n) := by
    have hre : S ++ pstr " *[" ++ natRepr n ++ pstr "]"
        = (S ++ pstr " *") ++ '[' :: (natRepr n ++ [']']) := by
      rw [hps1, hps2, hps3]
      simp [List.append_assoc]
    rw [hre]
    apply arrMatch_eq
    · apply arrMatchFrom_boundary _ _ hdsne hds
      · intro hc
        rcases List.mem_append.1 hc with h | h
        · exact ident_not_mem hid (by decide) h
        · rw [hps3] at h
          exact absurd h (by decide)
      · intro hc
        rcases List.mem_append.1 hc with h | h
        · exact ident_not_mem hid (by decide) h
        · rw [hps3] at h
          exact absurd h (by decide)
    · simp [hS]
  have hstripA : pyStrip (S ++ pstr " *") = S ++ pstr " *" :=
    pyStrip_ident_star hS hid
  have hround : natOfDigits (natRepr n) = n := natRepr_roundtrip hn
  simp only [convertShape]
  rw [hstripS, hreps, hstripS]
  rw [if_neg (by rw [hfp]; simp)]
  rw [hCT]
  rw [if_neg (by rw [hends]; simp)]
  rw [if_neg (by rw [hkeq, hgeq]; simp)]
  rw [if_neg (by rw [heeq]; simp)]
  rw [hteq]
  rw [if_neg (by rw [hfteq]; simp)]
  rw [harr]
  dsimp only
  rw [hstripA, hround]

/-- A symbol table whose structs map holds a record whose name contains
`char` as a substring. -/
def c2CxEnv : GenEnv :=
  { enums := [], structs := [(pstr "my_char_t", [(pstr "x", pstr "int", none)])],
    typedefs := [], func_typedefs := [], functions := [],
    generated_types := [], fuel := 0 }

/-- Counterexample to claim C2 as stated: for the struct name `my_char_t`
(present in the structs map), converting `my_char_t *[8]` does go through
the array rule, but the recursive pointer conversion's `"char" in base`
special case fires first, so the result is `c_char_p * 8`, not
`POINTER(my_char_t) * 8`. -/
theorem c2_counterexample :
    keyMem (pstr "my_char_t") c2CxEnv.structs = true
    ∧ convertFuel 9 c2CxEnv (pstr "my_char_t *[8]") = some (pstr "c_char_p * 8")
    ∧ ¬ convertFuel 9 c2CxEnv (pstr "my_char_t *[8]")
        = some (pstr "POINTER(my_char_t) * 8") := by
  refine ⟨by decide, by decide, by decide⟩

/-- Claim C2 as amended: for every struct name `S` in the structs map or
generated-types set whose spelling is a plain identifier and does not
contain `void` or `char` as a substring nor end in `const` (the pointer
branch special-cases those spellings), and every positive length `n`, the
type string `S *[n]` resolves via the array rule — the pointer rule never
fires on a string ending in a bracketed length — with element type
`POINTER(S)`, yielding `POINTER(S) * n`. -/
theorem c2_amended (env : GenEnv) (S : PyStr) (n : Nat)
    (hid : ∀ c ∈ S, isIdChar c = true) (hS : S ≠ [])
    (hmem : keyMem S env.structs = true ∨ memB S env.generated_types = true)
    (hvoid : pyInfixB (pstr "void") S = false)
    (hchar : pyInfixB (pstr "char") S = false)
    (hconst : pyEndsWithB S (pstr "const") = false)
    (hwf : wfKeys env) (hn : 1 ≤ n) :
    ∀ fuel, convertFuel (fuel + 2) env (S ++ pstr " *[" ++ natRepr n ++ pstr "]")
      = some (pstr "POINTER(" ++ S ++ pstr ") * " ++ natRepr n) := by
  intro fuel
  have h2 : fuel + 2 = (fuel + 1) + 1 := rfl
  rw [h2, convertFuel]
  rw [c2_shape_outer env S n hid hS hconst hwf hn]
  dsimp only
  rw [convertFuel]
  rw [c2_shape_inner env S hid hS hconst hvoid hchar hmem]
  dsimp only
  have hsp : pstr ") * " = pstr ")" ++ pstr " * " := rfl
  rw [hsp]
  simp [List.append_assoc]

theorem c2_amended_witness :
    convertFuel (0 + 2) sampleEnv
        (pstr "sg_desc" ++ pstr " *[" ++ natRepr 8 ++ pstr "]")
      = some (pstr "POINTER(" ++ pstr "sg_desc" ++ pstr ") * " ++ natRepr 8) :=
  c2_amended sampleEnv (pstr "sg_desc") 8 (by decide) (by decide)
    (Or.inl (by decide)) (by decide) (by decide) (by decide)
    ⟨by decide, by decide, by decide, by decide, by decide⟩ (by decide) 0

/-! Infrastructure for the section-ordering claim (C4). -/

theorem mem_of_get? {α : Type} : ∀ {l : List α} {n : Nat} {a : α},
    l.get? n = some a → a ∈ l := by
  intro l
  induction l with
  | nil =>
    intro n a h
    cases h
  | cons x t ih =>
    intro n a h
    cases n with
    | zero =>
      cases h
      exact List.mem_cons_self _ _
    | succ n => exact List.mem_cons_of_mem _ (ih h)

theorem get?_append_add {α : Type} (X Y : List α) (i : Nat) :
    (X ++ Y).get? (X.length + i) = Y.get? i := by
  induction X with
  | nil => simp
  | cons x X ih => simpa [List.length_cons, Nat.succ_add] using ih

theorem get?_append_lt {α : Type} (X Y : List α) (j : Nat) (h : j < X.length) :
    (X ++ Y).get? j = X.get? j := by
  induction X generalizing j with
  | nil => cases h
  | cons x X ih =>
    cases j with
    | zero => rfl
    | succ j => exact ih j (by simpa using h)

theorem get?_cons_length {α : Type} (A : List α) (x : α) (B : List α) :
    (A ++ x :: B).get? A.length = some x := by
  have := get?_append_add A (x :: B) 0
  simpa using this

theorem alGet_split {α : Type} {k : PyStr} {v : α} :
    ∀ {m : List (PyStr × α)}, alGet k m = some v →
      ∃ m1 m2, m = m1 ++ (k, v) :: m2 := by
  intro m
  induction m with
  | nil =>
    intro h
    cases h
  | cons p m ih =>
    intro h
    obtain ⟨k', v'⟩ := p
    unfold alGet at h
    by_cases hk : k' = k
    · rw [if_pos hk] at h
      cases h
      subst hk
      exact ⟨[], m, rfl⟩
    · rw [if_neg hk] at h
      obtain ⟨m1, m2, hm⟩ := ih h
      exact ⟨(k', v') :: m1, m2, by rw [hm, List.cons_append]⟩

theorem getLast_ne_of_not_mem {l : PyStr} {x : Char} (h : x ∉ l) :
    ¬ l.getLast? = some x := by
  intro hc
  obtain ⟨hne, heq⟩ := List.mem_getLast?_eq_getLast
    (show x ∈ l.getLast? by rw [hc]; rfl)
  exact h (heq ▸ List.getLast_mem hne)

theorem getLast_append_ne {A B : PyStr} {x : Char} (hB : B ≠ [])
    (h : ¬ B.getLast? = some x) : ¬ (A ++ B).getLast? = some x := by
  rw [List.getLast?_append_of_ne_nil A hB]
  exact h

theorem fieldsHeaderLine_ends (s : PyStr) :
    (fieldsHeaderLine s).getLast? = some '[' := by
  unfold fieldsHeaderLine
  rw [List.getLast?_append_of_ne_nil s (by decide)]
  decide

theorem intRepr_ne_nil (v : Int) : intRepr v ≠ [] := by
  unfold intRepr
  split_ifs
  · simp
  · exact natRepr_ne_nil _

theorem intRepr_last_digit (v : Int) : ∀ c, (intRepr v).getLast? = some c →
    Char.isDigit c = true := by
  have hnat : ∀ (n : Nat) (c : Char), (natRepr n).getLast? = some c →
      Char.isDigit c = true := by
    intro n c hc
    obtain ⟨hne, heq⟩ := List.mem_getLast?_eq_getLast
      (show c ∈ (natRepr n).getLast? by rw [hc]; rfl)
    exact natRepr_digits n c (heq ▸ List.getLast_mem hne)
  intro c hc
  unfold intRepr at hc
  split_ifs at hc with h
  · rw [show ('-' :: natRepr v.natAbs : PyStr) = ['-'] ++ natRepr v.natAbs from rfl] at hc
    rw [List.getLast?_append_of_ne_nil ['-'] (natRepr_ne_nil v.natAbs)] at hc
    exact hnat _ _ hc
  · exact hnat _ _ hc

theorem enum_value_line_no_bracket (cn : PyStr) (v : Int) :
    ¬ (cn ++ pstr " = " ++ intRepr v).getLast? = some '[' := by
  apply getLast_append_ne (intRepr_ne_nil v)
  intro hc
  exact absurd (intRepr_last_digit v '[' hc) (by decide)

theorem header_no_bracket : ∀ l ∈ write_header, ¬ l.getLast? = some '[' := by
  decide

theorem imports_no_bracket : ∀ l ∈ write_imports, ¬ l.getLast? = some '[' := by
  decide

theorem helpers_no_bracket : ∀ l ∈ write_type_helpers, ¬ l.getLast? = some '[' := by
  decide

theorem enums_no_bracket (enums : List (PyStr × List (PyStr × Int)))
    (hwf : ∀ p ∈ enums, '[' ∉ p.1) :
    ∀ l ∈ write_enums enums, ¬ l.getLast? = some '[' := by
  intro l hl
  unfold write_enums at hl
  split_ifs at hl with h
  · cases hl
  · rcases List.mem_append.1 hl with hban | hfl
    · have hb : ∀ x ∈ ([bannerLine, pstr "# Enums", bannerLine, pstr ""] : List PyStr),
          ¬ x.getLast? = some '[' := by decide
      exact hb l hban
    · obtain ⟨block, hblock, hlb⟩ := List.mem_flatten.1 hfl
      obtain ⟨p, hp, hpe⟩ := List.mem_map.1 hblock
      subst hpe
      rcases List.mem_cons.1 hlb with he | hlb
      · rw [he]
        apply getLast_ne_of_not_mem
        intro hmem
        rcases List.mem_append.1 hmem with h1 | h1
        · exact absurd h1 (by decide)
        · exact hwf p hp h1
      · rcases List.mem_append.1 hlb with hv | hlast
        · obtain ⟨q, hq, hqe⟩ := List.mem_map.1 hv
          rw [← hqe]
          exact enum_value_line_no_bracket q.1 q.2
        · simp only [List.mem_singleton] at hlast
          rw [hlast]
          decide

theorem fwd_no_bracket (structs : List (PyStr × List FieldInfo)) :
    ∀ l ∈ write_forward_declarations structs, ¬ l.getLast? = some '[' := by
  intro l hl
  unfold write_forward_declarations at hl
  split_ifs at hl with h
  · cases hl
  · rcases List.mem_append.1 hl with h1 | h2
    · rcases List.mem_append.1 h1 with hban | hmap
      · have hb : ∀ x ∈ ([bannerLine, pstr "# Forward Declarations", bannerLine,
            pstr ""] : List PyStr), ¬ x.getLast? = some '[' := by decide
        exact hb l hban
      · obtain ⟨p, hp, hpe⟩ := List.mem_map.1 hmap
        rw [← hpe]
        unfold classLine
        exact getLast_append_ne (by decide) (by decide)
    · simp only [List.mem_singleton] at h2
      rw [h2]
      decide

theorem ftd_no_bracket (env : GenEnv) :
    ∀ l ∈ write_func_typedefs env, ¬ l.getLast? = some '[' := by
  intro l hl
  unfold write_func_typedefs at hl
  split_ifs at hl with h
  · cases hl
  · rcases List.mem_append.1 hl with h1 | h2
    · rcases List.mem_append.1 h1 with hban | hmap
      · have hb : ∀ x ∈ ([bannerLine, pstr "# Function Pointer Types", bannerLine,
            pstr ""] : List PyStr), ¬ x.getLast? = some '[' := by decide
        exact hb l hban
      · obtain ⟨p, hp, hpe⟩ := List.mem_map.1 hmap
        rw [← hpe]
        unfold ctorLine
        dsimp only
        split_ifs with hargs
        · exact getLast_append_ne (by decide) (by decide)
        · exact getLast_append_ne (by decide) (by decide)
    · simp only [List.mem_singleton] at h2
      rw [h2]
      decide

theorem ctorLine_prefix (env : GenEnv) (p : PyStr × (PyStr × List PyStr)) :
    pyPrefixB (p.1 ++ pstr " = CFUNCTYPE(") (ctorLine env p) = true := by
  unfold ctorLine
  dsimp only
  split_ifs with hargs
  · have he : p.1 ++ pstr " = CFUNCTYPE(" ++ cvt env p.2.1 ++ pstr ")"
        = (p.1 ++ pstr " = CFUNCTYPE(") ++ (cvt env p.2.1 ++ pstr ")") := by
      simp [List.append_assoc]
    rw [he]
    exact pyPrefixB_append_self _ _
  · have he : p.1 ++ pstr " = CFUNCTYPE(" ++ cvt env p.2.1 ++ pstr ", "
        ++ pyJoin (pstr ", ") (List.map (cvt env) p.2.2) ++ pstr ")"
        = (p.1 ++ pstr " = CFUNCTYPE(") ++ (cvt env p.2.1 ++ pstr ", "
          ++ pyJoin (pstr ", ") (List.map (cvt env) p.2.2) ++ pstr ")") := by
      simp [List.append_assoc]
    rw [he]
    exact pyPrefixB_append_self _ _

/-- Claim C4: `generate` emits its sections in the fixed source order —
header, imports, primitive-type aliases, enum constants, forward
declarations for every captured record, function-pointer-type
constructors, record field-list bodies, dynamic-library loader,
per-function signature registration, public manifest — and in particular
every synthesized function-pointer constructor line appears in the output
strictly before every record field-list body line. -/
theorem c4_section_order (fuel : Nat) (ps : ParserState)
    (henum : ∀ p ∈ ps.enums, '[' ∉ p.1) :
    (generateLines fuel ps
      = write_header ++ write_imports ++ write_type_helpers ++
        write_enums (mkEnv fuel ps).enums ++
        write_forward_declarations (mkEnv fuel ps).structs ++
        write_func_typedefs (mkEnv fuel ps) ++ write_structs (mkEnv fuel ps) ++
        write_library_loader ++ write_function_bindings (mkEnv fuel ps) ++
        write_footer (mkEnv fuel ps))
    ∧ ∀ n v, alGet n ps.func_typedefs = some v →
      ∃ i l, (generateLines fuel ps).get? i = some l
        ∧ pyPrefixB (n ++ pstr " = CFUNCTYPE(") l = true
        ∧ ∀ s j l', (generateLines fuel ps).get? j = some l' →
            l' = fieldsHeaderLine s → i < j := by
  refine ⟨rfl, ?_⟩
  intro n v hfind
  obtain ⟨m1, m2, hm⟩ := alGet_split hfind
  have hne : ¬ (mkEnv fuel ps).func_typedefs = [] := by
    show ¬ ps.func_typedefs = []
    rw [hm]
    simp
  have hftl : write_func_typedefs (mkEnv fuel ps)
      = ([bannerLine, pstr "# Function Pointer Types", bannerLine, pstr ""] ++
          List.map (ctorLine (mkEnv fuel ps)) ps.func_typedefs) ++ [pstr ""] := by
    unfold write_func_typedefs
    rw [if_neg hne]
    rfl
  have hgen2 : generateLines fuel ps
      = write_header ++ (write_imports ++ (write_type_helpers ++
          (write_enums (mkEnv fuel ps).enums ++
            (write_forward_declarations (mkEnv fuel ps).structs ++
              (write_func_typedefs (mkEnv fuel ps) ++
                (write_structs (mkEnv fuel ps) ++ (write_library_loader ++
                  (write_function_bindings (mkEnv fuel ps) ++
                    write_footer (mkEnv fuel ps))))))))) := by
    simp [generateLines, List.append_assoc]
  -- the index of the constructor line for `n` inside its section
  have hmap : List.map (ctorLine (mkEnv fuel ps)) ps.func_typedefs
      = List.map (ctorLine (mkEnv fuel ps)) m1 ++
        ctorLine (mkEnv fuel ps) (n, v) :: List.map (ctorLine (mkEnv fuel ps)) m2 := by
    rw [hm, List.map_append, List.map_cons]
  have hsec : (write_func_typedefs (mkEnv fuel ps)).get? (4 + m1.length)
      = some (ctorLine (mkEnv fuel ps) (n, v)) := by
    rw [hftl, hmap]
    have hlt : 4 + m1.length
        < ([bannerLine, pstr "# Function Pointer Types", bannerLine, pstr ""] ++
            (List.map (ctorLine (mkEnv fuel ps)) m1 ++
              ctorLine (mkEnv fuel ps) (n, v) ::
                List.map (ctorLine (mkEnv fuel ps)) m2)).length := by
      simp [List.length_append]
      omega
    rw [get?_append_lt _ _ _ hlt]
    have h4 : (4 : Nat) + m1.length
        = ([bannerLine, pstr "# Function Pointer Types", bannerLine,
            pstr ""] : List PyStr).length + m1.length := by simp
    rw [h4, get?_append_add]
    have hlen : m1.length = (List.map (ctorLine (mkEnv fuel ps)) m1).length := by
      simp
    rw [hlen, get?_cons_length]
  have hsecLen : 4 + m1.length < (write_func_typedefs (mkEnv fuel ps)).length := by
    rw [hftl, hmap]
    simp [List.length_append]
    omega
  -- the global index
  refine ⟨write_header.length + (write_imports.length + (write_type_helpers.length +
      ((write_enums (mkEnv fuel ps).enums).length +
        ((write_forward_declarations (mkEnv fuel ps).structs).length +
          (4 + m1.length))))), ctorLine (mkEnv fuel ps) (n, v), ?_, ?_, ?_⟩
  · rw [hgen2]
    rw [get?_append_add, get?_append_add, get?_append_add, get?_append_add,
      get?_append_add]
    rw [get?_append_lt _ _ _ hsecLen]
    exact hsec
  · exact ctorLine_prefix (mkEnv fuel ps) (n, v)
  · intro s j l' hj hl'
    have hBlen : write_header.length + (write_imports.length +
        (write_type_helpers.length + ((write_enums (mkEnv fuel ps).enums).length +
          ((write_forward_declarations (mkEnv fuel ps).structs).length +
            (write_func_typedefs (mkEnv fuel ps)).length)))) ≤ j := by
      by_contra hcon
      push_neg at hcon
      have hjB : (generateLines fuel ps).get? j
          = (write_header ++ (write_imports ++ (write_type_helpers ++
              (write_enums (mkEnv fuel ps).enums ++
                (write_forward_declarations (mkEnv fuel ps).structs ++
                  write_func_typedefs (mkEnv fuel ps)))))).get? j := by
        have hgen3 : generateLines fuel ps
            = (write_header ++ (write_imports ++ (write_type_helpers ++
                (write_enums (mkEnv fuel ps).enums ++
                  (write_forward_declarations (mkEnv fuel ps).structs ++
                    write_func_typedefs (mkEnv fuel ps)))))) ++
              (write_structs (mkEnv fuel ps) ++ (write_library_loader ++
                (write_function_bindings (mkEnv fuel ps) ++
                  write_footer (mkEnv fuel ps)))) := by
          simp [generateLines, List.append_assoc]
        rw [hgen3]
        apply get?_append_lt
        simp only [List.length_append]
        omega
      rw [hjB] at hj
      have hmem := mem_of_get? hj
      have hnob : ¬ l'.getLast? = some '[' := by
        rcases List.mem_append.1 hmem with h1 | h1
        · exact header_no_bracket l' h1
        rcases List.mem_append.1 h1 with h2 | h2
        · exact imports_no_bracket l' h2
        rcases List.mem_append.1 h2 with h3 | h3
        · exact helpers_no_bracket l' h3
        rcases List.mem_append.1 h3 with h4 | h4
        · exact enums_no_bracket _ henum l' h4
        rcases List.mem_append.1 h4 with h5 | h5
        · exact fwd_no_bracket _ l' h5
        · exact ftd_no_bracket _ l' h5
      rw [hl'] at hnob
      exact hnob (fieldsHeaderLine_ends s)
    omega

theorem c4_section_order_witness :
    (generateLines 20 samplePs
      = write_header ++ write_imports ++ write_type_helpers ++
        write_enums (mkEnv 20 samplePs).enums ++
        write_forward_declarations (mkEnv 20 samplePs).structs ++
        write_func_typedefs (mkEnv 20 samplePs) ++ write_structs (mkEnv 20 samplePs) ++
        write_library_loader ++ write_function_bindings (mkEnv 20 samplePs) ++
        write_footer (mkEnv 20 samplePs))
    ∧ ∃ i l, (generateLines 20 samplePs).get? i = some l
        ∧ pyPrefixB (pstr "_FuncPtr_cb" ++ pstr " = CFUNCTYPE(") l = true
        ∧ ∀ s j l', (generateLines 20 samplePs).get? j = some l' →
            l' = fieldsHeaderLine s → i < j := by
  have h := c4_section_order 20 samplePs (by decide)
  exact ⟨h.1, h.2 (pstr "_FuncPtr_cb") (pstr "void", []) (by decide)⟩

/-- A loaded library exposing only `sg_setup` of the sample state's
functions. -/
def c6Lib : LibState :=
  { present := [pstr "sg_setup"], restypes := [], argtypesMap := [] }

theorem c6_guarded_binding_witness :
    (alGet (pstr "sg_commit") (runRegistrar sampleEnv c6Lib).restypes
        = alGet (pstr "sg_commit") c6Lib.restypes
      ∧ alGet (pstr "sg_commit") (runRegistrar sampleEnv c6Lib).argtypesMap
        = alGet (pstr "sg_commit") c6Lib.argtypesMap)
    ∧ alGet (pstr "sg_setup") (runRegistrar sampleEnv c6Lib).restypes
        = some (cvt sampleEnv (pstr "void")) := by
  refine ⟨(c6_guarded_binding sampleEnv c6Lib (pstr "sg_commit")).1 (by decide), ?_⟩
  exact ((c6_guarded_binding sampleEnv c6Lib (pstr "sg_setup")).2.1 (pstr "void")
    [(pstr "desc", pstr "const sg_desc *")] (by decide) (by decide) (by decide)).1

/-- Claim C9: under the precondition that the recursion through typedef
lookups and array element types admits no infinite descending chain
(accessibility of the one-step relation — the formal counterpart of "the
typedef alias graph is acyclic and type strings are finite"),
`_convert_type` terminates: some finite fuel suffices, and every larger
fuel returns the same converted result. -/
theorem c9_termination (env : GenEnv) (ty : PyStr) (h : Acc (stepR env) ty) :
    ∃ n r, ∀ m, n ≤ m → convertFuel m env ty = some r := by
  induction h with
  | intro x hx ih =>
    cases hshape : convertShape env x with
    | inl v =>
      refine ⟨1, v, ?_⟩
      intro m hm
      obtain ⟨m', rfl⟩ : ∃ m', m = m' + 1 := ⟨m - 1, by omega⟩
      simp [convertFuel, hshape]
    | inr p =>
      obtain ⟨arg, tail⟩ := p
      obtain ⟨n, r, hr⟩ := ih arg ⟨tail, hshape⟩
      refine ⟨n + 1, r ++ tail, ?_⟩
      intro m hm
      obtain ⟨m', rfl⟩ : ∃ m', m = m' + 1 := ⟨m - 1, by omega⟩
      have hm' := hr m' (by omega)
      simp [convertFuel, hshape, hm']

theorem c9_termination_witness :
    ∃ n r, ∀ m, n ≤ m → convertFuel m sampleEnv (pstr "sg_myint") = some r := by
  apply c9_termination
  apply Acc.intro
  intro y hy
  obtain ⟨tail, hs⟩ := hy
  have he : convertShape sampleEnv (pstr "sg_myint")
      = Sum.inr (pstr "int", ([] : PyStr)) := by decide
  rw [he] at hs
  cases hs
  apply Acc.intro
  intro z hz
  obtain ⟨t2, hs2⟩ := hz
  have he2 : convertShape sampleEnv (pstr "int") = Sum.inl (pstr "c_int") := by decide
  rw [he2] at hs2
  cases hs2

theorem c3_amended_witness :
    alGet (pstr "sg_backend")
        (processDecl samplePs
          (.enumDecl (pstr "sg_backend") [(pstr "SG_BACKEND_METAL", 2)])).enums
      = alGet (pstr "sg_backend") samplePs.enums
    ∧ alGet (pstr "sg_desc")
        (processDecl samplePs
          (.structDecl (pstr "sg_desc") true [.plain (pstr "y") (pstr "float")])).structs
      = alGet (pstr "sg_desc") samplePs.structs :=
  ⟨(c3_amended samplePs
      (.enumDecl (pstr "sg_backend") [(pstr "SG_BACKEND_METAL", 2)])
      (pstr "sg_backend")).1 (by decide),
   (c3_amended samplePs
      (.structDecl (pstr "sg_desc") true [.plain (pstr "y") (pstr "float")])
      (pstr "sg_desc")).2.1 (by decide)⟩

end SokolGen
